import Mathlib

/-!
Verification development for the lux LSP multiplexer.

The Go sources are embedded shallowly:

* `internal/jsonrpc/message.go` — `ID`, `Message`, `Error`, classification
  predicates and the constructors `NewRequest`, `NewNotification`,
  `NewResponse`, `NewErrorResponse`.
* `internal/jsonrpc` stream (`Stream.Read` / `Stream.Write`) — byte-level LSP
  framing; bytes are modelled as `List Char`.
* `internal/jsonrpc` conn (`Conn.Call`, `Conn.handleResponse`,
  `Conn.handleMessage`) — pending-map bookkeeping, modelled as explicit state
  passing; channels are modelled as opaque slot tokens.
* `internal/filematch` — `Matcher`, `MatcherSet`.
* `internal/capabilities` — `AggregateCapabilities`, `defaultCapabilities`.
* `internal/subprocess/pool.go` — the instance state machine of
  `Register` / `GetOrStart` / `Stop`, with external I/O outcomes passed as
  explicit parameters.

External collaborators (the Go standard library's JSON text layer, the gobwas
glob engine, the Nix executor, the capability-cache files) are not code of
this repository; they are modelled by concrete executable stand-ins (a compact
JSON printer and parser, glob predicates, outcome parameters, cache oracles),
each noted at its definition.
-/

/-! ## JSON values

Model of the JSON data handled by `encoding/json`.  Numbers are restricted to
integers, which covers every number the program itself produces (ids, error
codes, lengths). -/

inductive Json where
  | null : Json
  | bool (b : Bool) : Json
  | num (n : Int) : Json
  | str (s : String) : Json
  | arr (elems : List Json) : Json
  | obj (fields : List (String × Json)) : Json

/-! ### Decidable equality for `Json`

`Json` nests `List` and `Prod`, so we give the `BEq`/`DecidableEq` instances
by hand. -/

mutual

def Json.beq : Json → Json → Bool
  | .null, .null => true
  | .bool a, .bool b => a == b
  | .num a, .num b => a == b
  | .str a, .str b => a == b
  | .arr a, .arr b => Json.beqList a b
  | .obj a, .obj b => Json.beqFields a b
  | _, _ => false

def Json.beqList : List Json → List Json → Bool
  | [], [] => true
  | a :: as, b :: bs => Json.beq a b && Json.beqList as bs
  | _, _ => false

def Json.beqFields : List (String × Json) → List (String × Json) → Bool
  | [], [] => true
  | (ka, va) :: as, (kb, vb) :: bs => ka == kb && Json.beq va vb && Json.beqFields as bs
  | _, _ => false

end

mutual

theorem Json.beq_iff : ∀ a b : Json, Json.beq a b = true ↔ a = b
  | .null, b => by cases b <;> simp [Json.beq]
  | .bool x, b => by cases b <;> simp [Json.beq]
  | .num x, b => by cases b <;> simp [Json.beq]
  | .str x, b => by cases b <;> simp [Json.beq]
  | .arr xs, b => by
      cases b <;> simp [Json.beq]
      exact Json.beqList_iff xs _
  | .obj xs, b => by
      cases b <;> simp [Json.beq]
      exact Json.beqFields_iff xs _

theorem Json.beqList_iff : ∀ as bs : List Json, Json.beqList as bs = true ↔ as = bs
  | [], bs => by cases bs <;> simp [Json.beqList]
  | a :: as, bs => by
      cases bs with
      | nil => simp [Json.beqList]
      | cons b bs =>
        simp [Json.beqList, Json.beq_iff a b, Json.beqList_iff as bs]

theorem Json.beqFields_iff :
    ∀ as bs : List (String × Json), Json.beqFields as bs = true ↔ as = bs
  | [], bs => by cases bs <;> simp [Json.beqFields]
  | (ka, va) :: as, bs => by
      cases bs with
      | nil => simp [Json.beqFields]
      | cons b bs =>
        obtain ⟨kb, vb⟩ := b
        simp [Json.beqFields, Json.beq_iff va vb, Json.beqFields_iff as bs,
          and_assoc]

end

instance : DecidableEq Json := fun a b =>
  decidable_of_iff (Json.beq a b = true) (Json.beq_iff a b)

/-! ### Compact JSON printer

Models the output of Go's `json.Marshal`: compact form, strings quoted with
`"` / `\` and control characters escaped. -/

def hexDig (n : Nat) : Char :=
  if n < 10 then Char.ofNat (48 + n) else Char.ofNat (87 + n)

/-- Escaping of one character inside a JSON string, after Go's encoder:
quote and backslash get a backslash escape, control characters become
`\u00XX`, everything else is emitted verbatim. -/
def escChar (c : Char) : List Char :=
  if c = '"' then ['\\', '"']
  else if c = '\\' then ['\\', '\\']
  else if c.toNat < 32 then ['\\', 'u', '0', '0', hexDig (c.toNat / 16), hexDig (c.toNat % 16)]
  else [c]

def escChars : List Char → List Char
  | [] => []
  | c :: cs => escChar c ++ escChars cs

/-- Decimal digits of a natural number, most significant first, with explicit
fuel so that the definition is structurally recursive; `fuel > n` always
suffices because `n / 10 < n` for `n ≥ 10`. -/
def natCharsF : Nat → Nat → List Char
  | 0, _ => []
  | fuel + 1, n =>
      if n < 10 then [Char.ofNat (48 + n)]
      else natCharsF fuel (n / 10) ++ [Char.ofNat (48 + n % 10)]

/-- Decimal digits of a natural number, most significant first. -/
def natChars (n : Nat) : List Char := natCharsF (n + 1) n

def intChars (n : Int) : List Char :=
  if n < 0 then '-' :: natChars (-n).toNat else natChars n.toNat

mutual

def encodeJson : Json → List Char
  | .null => "null".data
  | .bool b => (if b then "true" else "false").data
  | .num n => intChars n
  | .str s => '"' :: escChars s.data ++ ['"']
  | .arr es => '[' :: encodeElems es ++ [']']
  | .obj fs => '{' :: encodeFields fs ++ ['}']

def encodeElems : List Json → List Char
  | [] => []
  | [e] => encodeJson e
  | e :: e' :: es => encodeJson e ++ ',' :: encodeElems (e' :: es)

def encodeFields : List (String × Json) → List Char
  | [] => []
  | [(k, v)] => '"' :: escChars k.data ++ '"' :: ':' :: encodeJson v
  | (k, v) :: f :: fs =>
      ('"' :: escChars k.data ++ '"' :: ':' :: encodeJson v) ++ ',' :: encodeFields (f :: fs)

end

/-! ### JSON parser

A recursive-descent parser over `List Char` with an explicit nesting-depth
fuel, modelling Go's `json.Unmarshal` text layer on compact input. -/

def hexVal (c : Char) : Option Nat :=
  if 48 ≤ c.toNat ∧ c.toNat ≤ 57 then some (c.toNat - 48)
  else if 97 ≤ c.toNat ∧ c.toNat ≤ 102 then some (c.toNat - 87)
  else if 65 ≤ c.toNat ∧ c.toNat ≤ 70 then some (c.toNat - 55)
  else none

def isDigitChar (c : Char) : Bool := 48 ≤ c.toNat && c.toNat ≤ 57

/-- Does the input start with a decimal digit? -/
def headDigit : List Char → Bool
  | [] => false
  | c :: _ => isDigitChar c

/-- Consume a maximal run of digits, accumulating their value. -/
def digitsAux (acc : Nat) : List Char → Nat × List Char
  | [] => (acc, [])
  | c :: rest =>
      if isDigitChar c then digitsAux (acc * 10 + (c.toNat - 48)) rest
      else (acc, c :: rest)

def parseNat (input : List Char) : Option (Nat × List Char) :=
  match input with
  | [] => none
  | c :: _ => if isDigitChar c then some (digitsAux 0 input) else none

/-- Body of a JSON string after the opening quote, up to and including the
closing quote. -/
def strBody : List Char → Option (List Char × List Char)
  | [] => none
  | c :: rest =>
      if c = '"' then some ([], rest)
      else if c = '\\' then
        match rest with
        | [] => none
        | e :: rest2 =>
            if e = '"' then (strBody rest2).map (fun p => ('"' :: p.1, p.2))
            else if e = '\\' then (strBody rest2).map (fun p => ('\\' :: p.1, p.2))
            else if e = '/' then (strBody rest2).map (fun p => ('/' :: p.1, p.2))
            else if e = 'b' then (strBody rest2).map (fun p => ('\x08' :: p.1, p.2))
            else if e = 'f' then (strBody rest2).map (fun p => ('\x0c' :: p.1, p.2))
            else if e = 'n' then (strBody rest2).map (fun p => ('\n' :: p.1, p.2))
            else if e = 'r' then (strBody rest2).map (fun p => ('\r' :: p.1, p.2))
            else if e = 't' then (strBody rest2).map (fun p => ('\t' :: p.1, p.2))
            else if e = 'u' then
              match rest2 with
              | h1 :: h2 :: h3 :: h4 :: rest3 =>
                  match hexVal h1, hexVal h2, hexVal h3, hexVal h4 with
                  | some a, some b, some c', some d =>
                      (strBody rest3).map
                        (fun p => (Char.ofNat (a * 4096 + b * 256 + c' * 16 + d) :: p.1, p.2))
                  | _, _, _, _ => none
              | _ => none
            else none
      else (strBody rest).map (fun p => (c :: p.1, p.2))

/-- Match an expected literal tail, returning the remainder of the input. -/
def expectLit : List Char → List Char → Option (List Char)
  | [], input => some input
  | _ :: _, [] => none
  | c :: cs, d :: input => if d = c then expectLit cs input else none

mutual

def parseValue : Nat → List Char → Option (Json × List Char)
  | 0, _ => none
  | _ + 1, [] => none
  | fuel + 1, c :: rest =>
      if c = 'n' then (expectLit ['u', 'l', 'l'] rest).map (fun r => (Json.null, r))
      else if c = 't' then (expectLit ['r', 'u', 'e'] rest).map (fun r => (Json.bool true, r))
      else if c = 'f' then (expectLit ['a', 'l', 's', 'e'] rest).map (fun r => (Json.bool false, r))
      else if c = '"' then (strBody rest).map (fun p => (Json.str (String.mk p.1), p.2))
      else if c = '[' then
        match rest with
        | ']' :: r => some (Json.arr [], r)
        | _ => (parseElems fuel rest).map (fun p => (Json.arr p.1, p.2))
      else if c = '{' then
        match rest with
        | '}' :: r => some (Json.obj [], r)
        | _ => (parseFields fuel rest).map (fun p => (Json.obj p.1, p.2))
      else if c = '-' then (parseNat rest).map (fun p => (Json.num (-(p.1 : Int)), p.2))
      else (parseNat (c :: rest)).map (fun p => (Json.num ((p.1 : Nat) : Int), p.2))

def parseElems : Nat → List Char → Option (List Json × List Char)
  | 0, _ => none
  | fuel + 1, input =>
      match parseValue fuel input with
      | none => none
      | some (v, rest) =>
          match rest with
          | ',' :: rest2 => (parseElems fuel rest2).map (fun p => (v :: p.1, p.2))
          | ']' :: rest2 => some ([v], rest2)
          | _ => none

def parseFields : Nat → List Char → Option (List (String × Json) × List Char)
  | 0, _ => none
  | fuel + 1, input =>
      match input with
      | '"' :: rest =>
          match strBody rest with
          | none => none
          | some (key, rest1) =>
              match rest1 with
              | ':' :: rest2 =>
                  match parseValue fuel rest2 with
                  | none => none
                  | some (v, rest3) =>
                      match rest3 with
                      | ',' :: rest4 =>
                          (parseFields fuel rest4).map
                            (fun p => ((String.mk key, v) :: p.1, p.2))
                      | '}' :: rest4 => some ([(String.mk key, v)], rest4)
                      | _ => none
              | _ => none
      | _ => none

end

/-- The external `json.Unmarshal` text layer: parse one JSON value and insist
that it spans the whole input. -/
def jsonParse (input : List Char) : Option Json :=
  match parseValue (input.length + 1) input with
  | some (v, []) => some v
  | _ => none

/-! ### Round-trip lemmas for the JSON codec -/

theorem digitsAux_of_not_digit (acc : Nat) (rest : List Char)
    (h : headDigit rest = false) : digitsAux acc rest = (acc, rest) := by
  cases rest with
  | nil => rfl
  | cons c cs =>
    simp only [headDigit] at h
    simp [digitsAux, h]

theorem digitChar_facts :
    ∀ n, n < 10 → isDigitChar (Char.ofNat (48 + n)) = true ∧
      (Char.ofNat (48 + n)).toNat = 48 + n := by decide

theorem natCharsF_cons :
    ∀ fuel n, n < fuel → ∃ c cs, natCharsF fuel n = c :: cs ∧ isDigitChar c = true := by
  intro fuel
  induction fuel with
  | zero => omega
  | succ f IH =>
    intro n hn
    by_cases h10 : n < 10
    · exact ⟨Char.ofNat (48 + n), [], by simp [natCharsF, h10], (digitChar_facts n h10).1⟩
    · have hdiv : n / 10 < f := by
        have h1 : n / 10 < n := Nat.div_lt_self (by omega) (by omega)
        omega
      obtain ⟨c, cs, hcons, hdig⟩ := IH (n / 10) hdiv
      refine ⟨c, cs ++ [Char.ofNat (48 + n % 10)], ?_, hdig⟩
      simp [natCharsF, h10, hcons]

theorem natChars_cons (n : Nat) :
    ∃ c cs, natChars n = c :: cs ∧ isDigitChar c = true :=
  natCharsF_cons (n + 1) n (by omega)

theorem digitsAux_natCharsF :
    ∀ fuel n acc rest, n < fuel →
      digitsAux acc (natCharsF fuel n ++ rest) =
        digitsAux (acc * 10 ^ (natCharsF fuel n).length + n) rest := by
  intro fuel
  induction fuel with
  | zero => omega
  | succ f IH =>
    intro n acc rest hn
    by_cases h10 : n < 10
    · have hfacts := digitChar_facts n h10
      simp [natCharsF, h10, digitsAux, hfacts.1, hfacts.2]
    · have hdiv : n / 10 < f := by
        have h1 : n / 10 < n := Nat.div_lt_self (by omega) (by omega)
        omega
      have hmod := digitChar_facts (n % 10) (Nat.mod_lt n (by omega))
      simp only [natCharsF, h10, if_false, List.append_assoc, List.cons_append,
        List.nil_append]
      rw [IH (n / 10) acc (Char.ofNat (48 + n % 10) :: rest) hdiv]
      simp only [digitsAux, hmod.1, if_true, hmod.2]
      have harith :
          (acc * 10 ^ (natCharsF f (n / 10)).length + n / 10) * 10 + (48 + n % 10 - 48) =
            acc * 10 ^ ((natCharsF f (n / 10)).length + 1) + n := by
        have h1 : 48 + n % 10 - 48 = n % 10 := by omega
        rw [h1, pow_succ]
        have h2 :
            (acc * 10 ^ (natCharsF f (n / 10)).length + n / 10) * 10 + n % 10 =
              acc * (10 ^ (natCharsF f (n / 10)).length * 10) + (n / 10 * 10 + n % 10) := by
          ring
        rw [h2]
        have h3 : n / 10 * 10 + n % 10 = n := by omega
        rw [h3]
      rw [harith]
      simp [List.length_append]

theorem parseNat_natChars (n : Nat) (rest : List Char) (h : headDigit rest = false) :
    parseNat (natChars n ++ rest) = some (n, rest) := by
  obtain ⟨c, cs, hcons, hdig⟩ := natChars_cons n
  have hdx : digitsAux 0 (natChars n ++ rest) = (n, rest) := by
    rw [show natChars n = natCharsF (n + 1) n from rfl,
      digitsAux_natCharsF (n + 1) n 0 rest (by omega)]
    simp [digitsAux_of_not_digit _ _ h]
  rw [hcons] at hdx ⊢
  simp only [List.cons_append] at hdx
  simp only [List.cons_append, parseNat, hdig, if_true]
  simp [hdx]

theorem hexVal_hexDig : ∀ x, x < 16 → hexVal (hexDig x) = some x := by decide

theorem strBody_step_quote (X : List Char) : strBody ('"' :: X) = some ([], X) := by
  rw [strBody.eq_def]
  simp

theorem strBody_step_escq (X : List Char) :
    strBody ('\\' :: '"' :: X) = (strBody X).map (fun p => ('"' :: p.1, p.2)) := by
  rw [strBody.eq_def]
  simp

theorem strBody_step_escb (X : List Char) :
    strBody ('\\' :: '\\' :: X) = (strBody X).map (fun p => ('\\' :: p.1, p.2)) := by
  rw [strBody.eq_def]
  simp

theorem strBody_step_escu (a b : Char) (va vb : Nat) (ha : hexVal a = some va)
    (hb : hexVal b = some vb) (X : List Char) :
    strBody ('\\' :: 'u' :: '0' :: '0' :: a :: b :: X) =
      (strBody X).map (fun p => (Char.ofNat (va * 16 + vb) :: p.1, p.2)) := by
  rw [strBody.eq_def]
  have h0 : hexVal '0' = some 0 := by decide
  simp [h0, ha, hb]

theorem strBody_step_plain (c : Char) (h1 : ¬ c = '"') (h2 : ¬ c = '\\') (X : List Char) :
    strBody (c :: X) = (strBody X).map (fun p => (c :: p.1, p.2)) := by
  rw [strBody.eq_def]
  simp [h1, h2]

theorem strBody_escChars :
    ∀ cs rest, strBody (escChars cs ++ '"' :: rest) = some (cs, rest) := by
  intro cs
  induction cs with
  | nil => intro rest; simp [escChars, strBody_step_quote]
  | cons c cs IH =>
    intro rest
    by_cases hq : c = '"'
    · subst hq
      simp [escChars, escChar, strBody_step_escq, IH]
    · by_cases hb : c = '\\'
      · subst hb
        simp [escChars, escChar, strBody_step_escb, IH]
      · by_cases hctl : c.toNat < 32
        · have hdiv : c.toNat / 16 < 16 := by omega
          have hmod : c.toNat % 16 < 16 := by omega
          simp only [escChars, escChar, hq, hb, hctl, if_true, if_false, ite_false,
            ite_true, List.cons_append, List.append_assoc, List.nil_append]
          rw [strBody_step_escu _ _ _ _ (hexVal_hexDig _ hdiv) (hexVal_hexDig _ hmod)]
          have harith : c.toNat / 16 * 16 + c.toNat % 16 = c.toNat := by omega
          simp [harith, Char.ofNat_toNat, IH]
        · simp only [escChars, escChar, hq, hb, hctl, if_false, ite_false,
            List.cons_append, List.append_assoc, List.nil_append]
          rw [strBody_step_plain c hq hb]
          simp [IH]

theorem encodeJson_length_pos : ∀ v : Json, 1 ≤ (encodeJson v).length := by
  intro v
  cases v with
  | null => simp [encodeJson]
  | bool b => cases b <;> simp [encodeJson]
  | num n =>
    simp only [encodeJson, intChars]
    by_cases hn : n < 0
    · simp [hn]
    · simp only [hn, if_false, ite_false]
      obtain ⟨c, cs, hcons, _⟩ := natChars_cons n.toNat
      simp [hcons]
  | str s => simp [encodeJson]
  | arr es => simp [encodeJson]
  | obj fs => simp [encodeJson]

/-- The first character of any encoded JSON value is never one of the
structural delimiters a parser continuation looks for. -/
theorem encodeJson_head :
    ∀ v : Json, ∃ c cs, encodeJson v = c :: cs ∧
      c ≠ ']' ∧ c ≠ '}' ∧ c ≠ ',' ∧ c ≠ ':' := by
  intro v
  cases v with
  | null => exact ⟨'n', _, rfl, by decide, by decide, by decide, by decide⟩
  | bool b =>
    cases b
    · exact ⟨'f', _, rfl, by decide, by decide, by decide, by decide⟩
    · exact ⟨'t', _, rfl, by decide, by decide, by decide, by decide⟩
  | num n =>
    by_cases hn : n < 0
    · refine ⟨'-', natChars (-n).toNat, ?_, by decide, by decide, by decide, by decide⟩
      simp [encodeJson, intChars, hn]
    · obtain ⟨c, cs, hcons, hdig⟩ := natChars_cons n.toNat
      refine ⟨c, cs, ?_, ?_, ?_, ?_, ?_⟩
      · simp [encodeJson, intChars, hn, hcons]
      all_goals
        rintro rfl
        exact absurd hdig (by decide)
  | str s => exact ⟨'"', _, rfl, by decide, by decide, by decide, by decide⟩
  | arr es => exact ⟨'[', _, rfl, by decide, by decide, by decide, by decide⟩
  | obj fs => exact ⟨'{', _, rfl, by decide, by decide, by decide, by decide⟩


theorem isDigit_ne (c : Char) (h : isDigitChar c = true) :
    c ≠ 'n' ∧ c ≠ 't' ∧ c ≠ 'f' ∧ c ≠ '"' ∧ c ≠ '[' ∧ c ≠ '{' ∧ c ≠ '-' := by
  refine ⟨?_, ?_, ?_, ?_, ?_, ?_, ?_⟩ <;> rintro rfl <;> exact absurd h (by decide)

theorem headDigit_cons (c : Char) (X : List Char) :
    headDigit (c :: X) = isDigitChar c := rfl

theorem pv_null (f : Nat) (r : List Char) :
    parseValue (f + 1) ('n' :: 'u' :: 'l' :: 'l' :: r) = some (.null, r) := by
  rw [parseValue.eq_def]
  simp [expectLit]

theorem pv_true (f : Nat) (r : List Char) :
    parseValue (f + 1) ('t' :: 'r' :: 'u' :: 'e' :: r) = some (.bool true, r) := by
  rw [parseValue.eq_def]
  simp [expectLit]

theorem pv_false (f : Nat) (r : List Char) :
    parseValue (f + 1) ('f' :: 'a' :: 'l' :: 's' :: 'e' :: r) = some (.bool false, r) := by
  rw [parseValue.eq_def]
  simp [expectLit]

theorem pv_str (f : Nat) (rest : List Char) :
    parseValue (f + 1) ('"' :: rest) =
      (strBody rest).map (fun p => (.str (String.mk p.1), p.2)) := by
  rw [parseValue.eq_def]
  simp

theorem pv_arr_empty (f : Nat) (r : List Char) :
    parseValue (f + 1) ('[' :: ']' :: r) = some (.arr [], r) := by
  rw [parseValue.eq_def]
  simp

theorem pv_arr_cons (f : Nat) (c : Char) (hc : ¬ c = ']') (X : List Char) :
    parseValue (f + 1) ('[' :: c :: X) =
      (parseElems f (c :: X)).map (fun p => (.arr p.1, p.2)) := by
  rw [parseValue.eq_def]
  simp
  split
  · rename_i r heq
    injection heq with hh _
    exact absurd hh hc
  · rfl

theorem pv_obj_empty (f : Nat) (r : List Char) :
    parseValue (f + 1) ('{' :: '}' :: r) = some (.obj [], r) := by
  rw [parseValue.eq_def]
  simp

theorem pv_obj_cons (f : Nat) (c : Char) (hc : ¬ c = '}') (X : List Char) :
    parseValue (f + 1) ('{' :: c :: X) =
      (parseFields f (c :: X)).map (fun p => (.obj p.1, p.2)) := by
  rw [parseValue.eq_def]
  simp
  split
  · rename_i r heq
    injection heq with hh _
    exact absurd hh hc
  · rfl

theorem pv_neg (f : Nat) (rest : List Char) :
    parseValue (f + 1) ('-' :: rest) =
      (parseNat rest).map (fun p => (.num (-(p.1 : Int)), p.2)) := by
  rw [parseValue.eq_def]
  simp

theorem pv_digit (f : Nat) (c : Char) (hdig : isDigitChar c = true) (X : List Char) :
    parseValue (f + 1) (c :: X) =
      (parseNat (c :: X)).map (fun p => (.num ((p.1 : Nat) : Int), p.2)) := by
  obtain ⟨h1, h2, h3, h4, h5, h6, h7⟩ := isDigit_ne c hdig
  rw [parseValue.eq_def]
  simp [h1, h2, h3, h4, h5, h6, h7]

theorem pe_step (f : Nat) (input : List Char) :
    parseElems (f + 1) input =
      match parseValue f input with
      | none => none
      | some (v, rest) =>
          match rest with
          | ',' :: rest2 => (parseElems f rest2).map (fun p => (v :: p.1, p.2))
          | ']' :: rest2 => some ([v], rest2)
          | _ => none := by
  rw [parseElems.eq_def]

theorem pf_step (f : Nat) (rest : List Char) :
    parseFields (f + 1) ('"' :: rest) =
      match strBody rest with
      | none => none
      | some (key, rest1) =>
          match rest1 with
          | ':' :: rest2 =>
              match parseValue f rest2 with
              | none => none
              | some (v, rest3) =>
                  match rest3 with
                  | ',' :: rest4 =>
                      (parseFields f rest4).map
                        (fun p => ((String.mk key, v) :: p.1, p.2))
                  | '}' :: rest4 => some ([(String.mk key, v)], rest4)
                  | _ => none
          | _ => none := by
  rw [parseFields.eq_def]
  rfl

theorem encodeJson_null_eq : encodeJson .null = ['n', 'u', 'l', 'l'] := rfl

theorem encodeJson_true_eq : encodeJson (.bool true) = ['t', 'r', 'u', 'e'] := rfl

theorem encodeJson_false_eq : encodeJson (.bool false) = ['f', 'a', 'l', 's', 'e'] := rfl

theorem encodeJson_num_eq (n : Int) : encodeJson (.num n) = intChars n := rfl

theorem encodeJson_str_eq (s : String) :
    encodeJson (.str s) = '"' :: escChars s.data ++ ['"'] := rfl

theorem encodeJson_arr_eq (es : List Json) :
    encodeJson (.arr es) = '[' :: encodeElems es ++ [']'] := rfl

theorem encodeJson_obj_eq (fs : List (String × Json)) :
    encodeJson (.obj fs) = '{' :: encodeFields fs ++ ['}'] := rfl

theorem encodeElems_single (e : Json) : encodeElems [e] = encodeJson e := rfl

theorem encodeElems_cons2 (e e' : Json) (es : List Json) :
    encodeElems (e :: e' :: es) = encodeJson e ++ ',' :: encodeElems (e' :: es) := rfl

theorem encodeFields_single (k : String) (v : Json) :
    encodeFields [(k, v)] = '"' :: escChars k.data ++ '"' :: ':' :: encodeJson v := rfl

theorem encodeFields_cons2 (k : String) (v : Json) (f : String × Json)
    (fs : List (String × Json)) :
    encodeFields ((k, v) :: f :: fs) =
      ('"' :: escChars k.data ++ '"' :: ':' :: encodeJson v) ++ ',' :: encodeFields (f :: fs) := rfl

theorem encodeElems_nil_eq : encodeElems [] = [] := rfl

theorem encodeFields_nil_eq : encodeFields [] = [] := rfl

theorem encodeElems_cons_shape (e : Json) (es : List Json) :
    ∃ c cs, encodeElems (e :: es) = c :: cs ∧ ¬ c = ']' ∧ ¬ c = '}' := by
  obtain ⟨c, cs0, hc, h1, h2, _, _⟩ := encodeJson_head e
  cases es with
  | nil => exact ⟨c, cs0, by rw [encodeElems_single, hc], h1, h2⟩
  | cons e' es' =>
    refine ⟨c, cs0 ++ ',' :: encodeElems (e' :: es'), ?_, h1, h2⟩
    rw [encodeElems_cons2, hc]
    simp

theorem encodeFields_cons_shape (p : String × Json) (fs : List (String × Json)) :
    ∃ cs, encodeFields (p :: fs) = '"' :: cs := by
  obtain ⟨k, v⟩ := p
  cases fs with
  | nil => exact ⟨_, encodeFields_single k v⟩
  | cons f fs' =>
    refine ⟨escChars k.data ++ '"' :: ':' :: encodeJson v ++ ',' :: encodeFields (f :: fs'), ?_⟩
    rw [encodeFields_cons2]
    simp

/-- Parsing inverts printing: the recursive core, by strong induction on the
parser fuel. -/
theorem parse_encode :
    ∀ f : Nat,
      (∀ v rest, (encodeJson v).length < f → headDigit rest = false →
        parseValue f (encodeJson v ++ rest) = some (v, rest)) ∧
      (∀ es rest, es ≠ [] → (encodeElems es).length + 1 < f →
        parseElems f (encodeElems es ++ ']' :: rest) = some (es, rest)) ∧
      (∀ fs rest, fs ≠ [] → (encodeFields fs).length + 1 < f →
        parseFields f (encodeFields fs ++ '}' :: rest) = some (fs, rest)) := by
  intro f
  induction f using Nat.strong_induction_on with
  | _ f IH =>
  cases f with
  | zero =>
    refine ⟨?_, ?_, ?_⟩
    · intro v rest hlen _
      exact absurd hlen (by omega)
    · intro es rest _ hlen
      exact absurd hlen (by omega)
    · intro fs rest _ hlen
      exact absurd hlen (by omega)
  | succ g =>
    refine ⟨?_, ?_, ?_⟩
    · intro v rest hlen hrest
      cases v with
      | null =>
        rw [encodeJson_null_eq]
        exact pv_null g rest
      | bool b =>
        cases b
        · rw [encodeJson_false_eq]
          exact pv_false g rest
        · rw [encodeJson_true_eq]
          exact pv_true g rest
      | num n =>
        rw [encodeJson_num_eq, intChars]
        by_cases hn : n < 0
        · simp only [hn, if_true, ite_true, List.cons_append]
          rw [pv_neg, parseNat_natChars _ _ hrest]
          simp [Int.toNat_of_nonneg (by omega : (0 : Int) ≤ -n)]
        · simp only [hn, if_false, ite_false]
          obtain ⟨c, cs, hcons, hdig⟩ := natChars_cons n.toNat
          rw [hcons, List.cons_append, pv_digit g c hdig, ← List.cons_append, ← hcons,
            parseNat_natChars _ _ hrest]
          simp [Int.toNat_of_nonneg (by omega : (0 : Int) ≤ n)]
      | str s =>
        rw [encodeJson_str_eq]
        simp only [List.cons_append, List.append_assoc, List.nil_append]
        rw [pv_str, strBody_escChars]
        simp
      | arr es =>
        cases es with
        | nil =>
          rw [encodeJson_arr_eq, encodeElems_nil_eq]
          exact pv_arr_empty g rest
        | cons e es' =>
          obtain ⟨c, cs, hcons, hcne, _⟩ := encodeElems_cons_shape e es'
          have hq : (encodeElems (e :: es')).length + 1 < g := by
            rw [encodeJson_arr_eq] at hlen
            simp [List.length_append] at hlen
            omega
          rw [encodeJson_arr_eq]
          simp only [List.cons_append, List.append_assoc, List.nil_append]
          rw [show encodeElems (e :: es') ++ ']' :: rest = c :: (cs ++ ']' :: rest) by
            rw [hcons]; simp]
          rw [pv_arr_cons g c hcne]
          rw [show c :: (cs ++ ']' :: rest) = encodeElems (e :: es') ++ ']' :: rest by
            rw [hcons]; simp]
          rw [(IH g (by omega)).2.1 (e :: es') rest (by simp) hq]
          rfl
      | obj fs =>
        cases fs with
        | nil =>
          rw [encodeJson_obj_eq, encodeFields_nil_eq]
          exact pv_obj_empty g rest
        | cons p fs' =>
          obtain ⟨cs, hcons⟩ := encodeFields_cons_shape p fs'
          have hq : (encodeFields (p :: fs')).length + 1 < g := by
            rw [encodeJson_obj_eq] at hlen
            simp [List.length_append] at hlen
            omega
          rw [encodeJson_obj_eq]
          simp only [List.cons_append, List.append_assoc, List.nil_append]
          rw [show encodeFields (p :: fs') ++ '}' :: rest = '"' :: (cs ++ '}' :: rest) by
            rw [hcons]; simp]
          rw [pv_obj_cons g '"' (by decide)]
          rw [show ('"' : Char) :: (cs ++ '}' :: rest) = encodeFields (p :: fs') ++ '}' :: rest by
            rw [hcons]; simp]
          rw [(IH g (by omega)).2.2 (p :: fs') rest (by simp) hq]
          rfl
    · intro es rest hne hlen
      cases es with
      | nil => exact absurd rfl hne
      | cons e es' =>
        cases es' with
        | nil =>
          rw [encodeElems_single] at hlen ⊢
          rw [pe_step]
          rw [(IH g (by omega)).1 e (']' :: rest) (by omega)
            (by rw [headDigit_cons]; decide)]
          rfl
        | cons e' es'' =>
          have hpos := encodeJson_length_pos e
          have hlenE : (encodeJson e).length < g := by
            rw [encodeElems_cons2] at hlen
            simp [List.length_append] at hlen
            omega
          have hlenT : (encodeElems (e' :: es'')).length + 1 < g := by
            rw [encodeElems_cons2] at hlen
            simp [List.length_append] at hlen
            omega
          rw [encodeElems_cons2]
          simp only [List.cons_append, List.append_assoc, List.nil_append]
          rw [pe_step]
          rw [(IH g (by omega)).1 e (',' :: (encodeElems (e' :: es'') ++ ']' :: rest)) hlenE
            (by rw [headDigit_cons]; decide)]
          simp only []
          rw [(IH g (by omega)).2.1 (e' :: es'') rest (by simp) hlenT]
          rfl
    · intro fs rest hne hlen
      cases fs with
      | nil => exact absurd rfl hne
      | cons p fs' =>
        obtain ⟨k, v⟩ := p
        cases fs' with
        | nil =>
          have hlenV : (encodeJson v).length < g := by
            rw [encodeFields_single] at hlen
            simp [List.length_append] at hlen
            omega
          rw [encodeFields_single]
          simp only [List.cons_append, List.append_assoc, List.nil_append]
          rw [pf_step]
          rw [show escChars k.data ++ '"' :: ':' :: (encodeJson v ++ '}' :: rest) =
              escChars k.data ++ '"' :: (':' :: (encodeJson v ++ '}' :: rest)) from rfl,
            strBody_escChars]
          simp only []
          rw [(IH g (by omega)).1 v ('}' :: rest) hlenV
            (by rw [headDigit_cons]; decide)]
          simp
        | cons f2 fs'' =>
          have hposV := encodeJson_length_pos v
          have hlenV : (encodeJson v).length < g := by
            rw [encodeFields_cons2] at hlen
            simp [List.length_append] at hlen
            omega
          have hlenT : (encodeFields (f2 :: fs'')).length + 1 < g := by
            rw [encodeFields_cons2] at hlen
            simp [List.length_append] at hlen
            omega
          rw [encodeFields_cons2]
          simp only [List.cons_append, List.append_assoc, List.nil_append]
          rw [pf_step]
          rw [show escChars k.data ++ '"' :: ':' :: (encodeJson v ++
                ',' :: (encodeFields (f2 :: fs'') ++ '}' :: rest)) =
              escChars k.data ++ '"' :: (':' :: (encodeJson v ++
                ',' :: (encodeFields (f2 :: fs'') ++ '}' :: rest))) from rfl,
            strBody_escChars]
          simp only []
          rw [(IH g (by omega)).1 v (',' :: (encodeFields (f2 :: fs'') ++ '}' :: rest)) hlenV
            (by rw [headDigit_cons]; decide)]
          simp only []
          rw [(IH g (by omega)).2.2 (f2 :: fs'') rest (by simp) hlenT]
          rfl

/-- Parsing inverts printing for whole inputs. -/
theorem jsonParse_encodeJson (v : Json) : jsonParse (encodeJson v) = some v := by
  have h := (parse_encode ((encodeJson v).length + 1)).1 v [] (by omega) rfl
  simp only [List.append_nil] at h
  unfold jsonParse
  rw [h]

/-! ## JSON-RPC messages — `internal/jsonrpc/message.go`

`ID` holds either a number pointer or a string pointer in Go; both nil is the
null id.  `Message` mirrors the Go struct field for field; `json.RawMessage`
fields are modelled as `Option Json` (`nil` slice = `none`). -/

namespace jsonrpc

inductive ID where
  | num (n : Int) : ID
  | str (s : String) : ID
  | null : ID
deriving DecidableEq

/-- `ID.String` (message.go): `%d` rendering for numbers, the raw string for
string ids, `"<null>"` for the null id. -/
def ID.String : ID → String
  | .num n => toString n
  | .str s => s
  | .null => "<null>"

def Version : String := "2.0"

structure Error where
  code : Int
  message : String
  data : Option Json
deriving DecidableEq

structure Message where
  jsonrpc : String
  id : Option ID
  method : String
  params : Option Json
  result : Option Json
  error : Option Error
deriving DecidableEq

def ParseError : Int := -32700
def InvalidRequest : Int := -32600
def MethodNotFound : Int := -32601
def InvalidParams : Int := -32602
def InternalError : Int := -32603
def ServerNotInitialized : Int := -32002
def RequestCancelled : Int := -32800
def ContentModified : Int := -32801

def Message.IsRequest (m : Message) : Bool := m.id.isSome && m.method != ""

def Message.IsNotification (m : Message) : Bool := m.id.isNone && m.method != ""

def Message.IsResponse (m : Message) : Bool := m.id.isSome && m.method == ""

/-- `NewRequest`; the Go code marshals `params any` through the external JSON
library, modelled by passing the JSON value directly. -/
def NewRequest (id : ID) (method : String) (params : Option Json) : Message :=
  { jsonrpc := Version, id := some id, method := method, params := params,
    result := none, error := none }

def NewNotification (method : String) (params : Option Json) : Message :=
  { jsonrpc := Version, id := none, method := method, params := params,
    result := none, error := none }

def NewResponse (id : ID) (result : Option Json) : Message :=
  { jsonrpc := Version, id := some id, method := "", params := none,
    result := result, error := none }

def NewErrorResponse (id : ID) (code : Int) (message : String) (data : Option Json) : Message :=
  { jsonrpc := Version, id := some id, method := "", params := none, result := none,
    error := some { code := code, message := message, data := data } }

/-! ### Marshalling (`json.Marshal` over the `Message` struct)

Field order and `omitempty` behaviour follow the Go struct tags:
`jsonrpc` always, `id` omitted when the pointer is nil (`ID.MarshalJSON`
renders the null id as JSON null), `method`/`params`/`result`/`error`
omitted when empty. -/

def idToJson : ID → Json
  | .num n => .num n
  | .str s => .str s
  | .null => .null

def errorToJson (e : Error) : Json :=
  .obj ([("code", .num e.code), ("message", .str e.message)] ++
    (match e.data with
     | none => []
     | some d => [("data", d)]))

def messageToJson (m : Message) : Json :=
  .obj ([("jsonrpc", .str m.jsonrpc)] ++
    (match m.id with
     | none => []
     | some i => [("id", idToJson i)]) ++
    (if m.method = "" then [] else [("method", .str m.method)]) ++
    (match m.params with
     | none => []
     | some p => [("params", p)]) ++
    (match m.result with
     | none => []
     | some r => [("result", r)]) ++
    (match m.error with
     | none => []
     | some e => [("error", errorToJson e)]))

/-! ### Unmarshalling (`json.Unmarshal` into the `Message` struct)

Object fields are applied left to right onto the zero value; unknown keys are
ignored.  A JSON `null` for the `id` or `error` field sets the pointer to nil
without invoking the custom unmarshaller (Go's documented behaviour for
pointer-typed fields: "Unmarshal first handles the case of the JSON being the
JSON literal null. In that case, Unmarshal sets the pointer to nil"), whereas
`null` for the non-pointer `RawMessage` fields stores the raw value. -/

def idFromJson : Json → Option (Option ID)
  | .null => some none
  | .num n => some (some (.num n))
  | .str s => some (some (.str s))
  | _ => none

def applyErrField (e : Error) : String × Json → Option Error
  | ("code", .num n) => some { e with code := n }
  | ("code", .null) => some e
  | ("code", _) => none
  | ("message", .str s) => some { e with message := s }
  | ("message", .null) => some e
  | ("message", _) => none
  | ("data", j) => some { e with data := some j }
  | (_, _) => some e

def errFieldsAux : Error → List (String × Json) → Option Error
  | e, [] => some e
  | e, f :: fs =>
      match applyErrField e f with
      | none => none
      | some e' => errFieldsAux e' fs

def errorFromJson : Json → Option (Option Error)
  | .null => some none
  | .obj fields => (errFieldsAux { code := 0, message := "", data := none } fields).map some
  | _ => none

def applyMsgField (m : Message) : String × Json → Option Message
  | ("jsonrpc", .str s) => some { m with jsonrpc := s }
  | ("jsonrpc", .null) => some m
  | ("jsonrpc", _) => none
  | ("id", j) => (idFromJson j).map (fun i => { m with id := i })
  | ("method", .str s) => some { m with method := s }
  | ("method", .null) => some m
  | ("method", _) => none
  | ("params", j) => some { m with params := some j }
  | ("result", j) => some { m with result := some j }
  | ("error", j) => (errorFromJson j).map (fun e => { m with error := e })
  | (_, _) => some m

def msgFieldsAux : Message → List (String × Json) → Option Message
  | m, [] => some m
  | m, f :: fs =>
      match applyMsgField m f with
      | none => none
      | some m' => msgFieldsAux m' fs

def zeroMessage : Message :=
  { jsonrpc := "", id := none, method := "", params := none, result := none, error := none }

def msgFromJson : Json → Option Message
  | .obj fields => msgFieldsAux zeroMessage fields
  | _ => none

end jsonrpc

namespace jsonrpc

theorem msgFieldsAux_append (m : Message) (a b : List (String × Json)) :
    msgFieldsAux m (a ++ b) =
      match msgFieldsAux m a with
      | none => none
      | some m' => msgFieldsAux m' b := by
  induction a generalizing m with
  | nil => rfl
  | cons f fs IH =>
    simp only [List.cons_append, msgFieldsAux]
    cases applyMsgField m f with
    | none => rfl
    | some m' => exact IH m'

/-- Unmarshalling inverts marshalling at the struct level, for every message
whose id field is not a pointer to the null id (for that one Go collapses
`"id": null` to an absent id on the way back in). -/
theorem msgFromJson_messageToJson (m : Message) (hid : m.id ≠ some ID.null) :
    msgFromJson (messageToJson m) = some m := by
  obtain ⟨mj, mid, mm, mp, mr, me⟩ := m
  rcases mid with _ | i
  · by_cases hm : mm = "" <;>
      rcases mp with _ | p <;>
      rcases mr with _ | r <;>
      rcases me with _ | ⟨ec, es, _ | ed⟩ <;>
      simp [hm, messageToJson, msgFromJson, msgFieldsAux_append, msgFieldsAux,
        applyMsgField, idFromJson, idToJson, errorFromJson, errorToJson, errFieldsAux,
        applyErrField, zeroMessage]
  · rcases i with n | s | _
    · by_cases hm : mm = "" <;>
        rcases mp with _ | p <;>
        rcases mr with _ | r <;>
        rcases me with _ | ⟨ec, es, _ | ed⟩ <;>
        simp [hm, messageToJson, msgFromJson, msgFieldsAux_append, msgFieldsAux,
          applyMsgField, idFromJson, idToJson, errorFromJson, errorToJson, errFieldsAux,
          applyErrField, zeroMessage]
    · by_cases hm : mm = "" <;>
        rcases mp with _ | p <;>
        rcases mr with _ | r <;>
        rcases me with _ | ⟨ec, es, _ | ed⟩ <;>
        simp [hm, messageToJson, msgFromJson, msgFieldsAux_append, msgFieldsAux,
          applyMsgField, idFromJson, idToJson, errorFromJson, errorToJson, errFieldsAux,
          applyErrField, zeroMessage]
    · exact absurd rfl hid

end jsonrpc

/-! ## LSP framing — the `Stream` type of the jsonrpc package

`Stream.Write` emits `Content-Length: N\r\n\r\n` followed by the marshalled
body; `Stream.Read` loops over CRLF-terminated header lines until a blank
line, requires a `Content-Length` header (case-insensitive name, value parsed
with `strconv.Atoi`), reads exactly that many bytes and unmarshals them.
The byte stream is modelled as `List Char`; `bufio.ReadString('\n')` is
`readLine`, `strings.TrimSpace` is `trimSpace`, `strings.SplitN(line, ":", 2)`
is `splitColon`, `strings.EqualFold` is `eqFold` (ASCII folding) and
`strconv.Atoi` is `goAtoi`. -/

namespace jsonrpc

inductive ReadErr where
  | headerEof
  | invalidHeader
  | badContentLength
  | missingContentLength
  | bodyEof
  | parseFail
deriving DecidableEq

/-- `bufio.Reader.ReadString('\n')`: the line including its terminator, or
failure at end of input. -/
def readLine : List Char → Option (List Char × List Char)
  | [] => none
  | c :: rest =>
      if c = '\n' then some ([c], rest)
      else (readLine rest).map (fun p => (c :: p.1, p.2))

def isGoSpace (c : Char) : Bool :=
  c = ' ' || c = '\t' || c = '\n' || c = '\x0b' || c = '\x0c' || c = '\r'

def rtrimSpace (cs : List Char) : List Char := (cs.reverse.dropWhile isGoSpace).reverse

def trimSpace (cs : List Char) : List Char := rtrimSpace (cs.dropWhile isGoSpace)

/-- `strings.SplitN(line, ":", 2)`: split at the first colon; `none` when the
line has no colon (the `len(parts) != 2` failure). -/
def splitColon : List Char → Option (List Char × List Char)
  | [] => none
  | c :: rest =>
      if c = ':' then some ([], rest)
      else (splitColon rest).map (fun p => (c :: p.1, p.2))

def asciiLower (c : Char) : Char :=
  if 65 ≤ c.toNat ∧ c.toNat ≤ 90 then Char.ofNat (c.toNat + 32) else c

def eqFold (a b : List Char) : Bool := a.map asciiLower == b.map asciiLower

def clName : List Char := "Content-Length".data

def allDigits (ds : List Char) : Option Nat :=
  match ds with
  | [] => none
  | _ =>
      match digitsAux 0 ds with
      | (n, []) => some n
      | _ => none

/-- `strconv.Atoi`: optional sign, then a non-empty all-digit string. -/
def goAtoi (cs : List Char) : Option Int :=
  match cs with
  | [] => none
  | c :: ds =>
      if c = '+' then (allDigits ds).map (fun n => (n : Int))
      else if c = '-' then (allDigits ds).map (fun n => -(n : Int))
      else (allDigits (c :: ds)).map (fun n => (n : Int))

/-- The header loop of `Stream.Read`, with fuel for structural recursion;
each iteration consumes at least one character, so `fuel > input.length`
always suffices. -/
def readHeadersF : Nat → List Char → Option Int → Except ReadErr (Option Int × List Char)
  | 0, _, _ => .error .headerEof
  | f + 1, input, cl =>
      match readLine input with
      | none => .error .headerEof
      | some (line, rest) =>
          let t := trimSpace line
          if t = [] then .ok (cl, rest)
          else
            match splitColon t with
            | none => .error .invalidHeader
            | some (name, value) =>
                if eqFold (trimSpace name) clName then
                  match goAtoi (trimSpace value) with
                  | none => .error .badContentLength
                  | some n => readHeadersF f rest (some n)
                else readHeadersF f rest cl

def readHeaders (input : List Char) : Except ReadErr (Option Int × List Char) :=
  readHeadersF (input.length + 1) input none

/-- `Stream.Read`: headers, then exactly `Content-Length` body bytes, then
JSON unmarshalling.  A negative or absent length is the
"missing Content-Length header" failure, exactly as in the source where the
length is initialised to `-1`. -/
def streamRead (input : List Char) : Except ReadErr (Message × List Char) :=
  match readHeaders input with
  | .error e => .error e
  | .ok (cl, rest) =>
      match cl with
      | none => .error .missingContentLength
      | some n =>
          if n < 0 then .error .missingContentLength
          else if rest.length < n.toNat then .error .bodyEof
          else
            match jsonParse (rest.take n.toNat) with
            | none => .error .parseFail
            | some j =>
                match msgFromJson j with
                | none => .error .parseFail
                | some m => .ok (m, rest.drop n.toNat)

/-- `Stream.Write`: the header `Content-Length: N\r\n\r\n` (here spelled
`clName ++ ':' :: ' ' :: digits`) followed by the marshalled body. -/
def streamWrite (m : Message) : List Char :=
  let body := encodeJson (messageToJson m)
  clName ++ ':' :: ' ' :: natChars body.length ++ '\r' :: '\n' :: '\r' :: '\n' :: body

end jsonrpc

namespace jsonrpc

theorem readLine_append_nl :
    ∀ l rest, '\n' ∉ l → readLine (l ++ '\n' :: rest) = some (l ++ ['\n'], rest) := by
  intro l
  induction l with
  | nil => intro rest _; simp [readLine]
  | cons c cs IH =>
    intro rest hnl
    have hc : ¬ c = '\n' := by
      intro hh
      exact hnl (by simp [hh])
    have hcs : '\n' ∉ cs := by
      intro hh
      exact hnl (by simp [hh])
    simp [readLine, hc, IH rest hcs]

theorem digitChar_aux (c : Char) (h : isDigitChar c = true) :
    isGoSpace c = false ∧ ¬ c = '\n' ∧ ¬ c = ':' ∧ ¬ c = '+' ∧ ¬ c = '-' ∧ ¬ c = '\r' := by
  have h1 : ¬ c = ' ' := fun hh => absurd h (hh ▸ by decide)
  have h2 : ¬ c = '\t' := fun hh => absurd h (hh ▸ by decide)
  have h3 : ¬ c = '\n' := fun hh => absurd h (hh ▸ by decide)
  have h4 : ¬ c = '\x0b' := fun hh => absurd h (hh ▸ by decide)
  have h5 : ¬ c = '\x0c' := fun hh => absurd h (hh ▸ by decide)
  have h6 : ¬ c = '\r' := fun hh => absurd h (hh ▸ by decide)
  refine ⟨by simp [isGoSpace, h1, h2, h3, h4, h5, h6], h3, ?_, ?_, ?_, h6⟩
  · exact fun hh => absurd h (hh ▸ by decide)
  · exact fun hh => absurd h (hh ▸ by decide)
  · exact fun hh => absurd h (hh ▸ by decide)

theorem splitColon_append :
    ∀ pre suf, ':' ∉ pre → splitColon (pre ++ ':' :: suf) = some (pre, suf) := by
  intro pre
  induction pre with
  | nil => intro suf _; simp [splitColon]
  | cons c cs IH =>
    intro suf hnc
    have hc : ¬ c = ':' := by
      intro hh
      exact hnc (by simp [hh])
    have hcs : ':' ∉ cs := by
      intro hh
      exact hnc (by simp [hh])
    simp [splitColon, hc, IH suf hcs]

theorem rtrim_crlf (A : List Char) : rtrimSpace (A ++ ['\r', '\n']) = rtrimSpace A := by
  simp only [rtrimSpace, List.reverse_append]
  rfl

theorem rtrim_sep (A v : List Char) :
    rtrimSpace (A ++ ':' :: v) = A ++ ':' :: rtrimSpace v := by
  simp only [rtrimSpace, List.reverse_append, List.reverse_cons, List.append_assoc,
    List.singleton_append]
  rw [List.dropWhile_append]
  by_cases hemp : (v.reverse.dropWhile isGoSpace).isEmpty
  · rw [List.isEmpty_iff] at hemp
    simp [hemp, List.dropWhile_cons, show isGoSpace ':' = false by decide]
  · simp [hemp]

theorem rtrim_nonspace (ds : List Char) (hne : ds ≠ [])
    (hall : ∀ c ∈ ds, isGoSpace c = false) : rtrimSpace ds = ds := by
  obtain ⟨d, tail, hrev⟩ : ∃ d tail, ds.reverse = d :: tail := by
    cases hds : ds.reverse with
    | nil => exact absurd (by simpa using congrArg List.reverse hds) hne
    | cons d tail => exact ⟨d, tail, rfl⟩
  have hd : isGoSpace d = false := by
    apply hall
    have hmem : d ∈ ds.reverse := by rw [hrev]; simp
    simpa using hmem
  simp only [rtrimSpace, hrev, List.dropWhile_cons, hd, Bool.false_eq_true, if_false,
    ite_false]
  simpa using congrArg List.reverse hrev.symm

theorem trimSpace_nonspace (ds : List Char) (hne : ds ≠ [])
    (hall : ∀ c ∈ ds, isGoSpace c = false) : trimSpace ds = ds := by
  obtain ⟨d, tail, rfl⟩ : ∃ d tail, ds = d :: tail := by
    cases ds with
    | nil => exact absurd rfl hne
    | cons d tail => exact ⟨d, tail, rfl⟩
  have hd : isGoSpace d = false := hall d (by simp)
  simp only [trimSpace, List.dropWhile_cons, hd, Bool.false_eq_true, if_false, ite_false]
  exact rtrim_nonspace _ (by simp) hall

theorem trim_header_line (name v : List Char) (c0 : Char)
    (h0 : isGoSpace c0 = false) :
    trimSpace (((c0 :: name) ++ ':' :: v) ++ ['\r', '\n']) =
      (c0 :: name) ++ ':' :: rtrimSpace v := by
  have h1 : (((c0 :: name) ++ ':' :: v) ++ ['\r', '\n']).dropWhile isGoSpace =
      ((c0 :: name) ++ ':' :: v) ++ ['\r', '\n'] := by
    rw [show ((c0 :: name) ++ ':' :: v) ++ ['\r', '\n'] =
        c0 :: ((name ++ ':' :: v) ++ ['\r', '\n']) by simp]
    rw [List.dropWhile_cons]
    simp [h0]
  simp only [trimSpace, h1]
  rw [rtrim_crlf, rtrim_sep]

theorem dropWhile_nonspace (ds : List Char)
    (hall : ∀ c ∈ ds, isGoSpace c = false) : ds.dropWhile isGoSpace = ds := by
  cases ds with
  | nil => rfl
  | cons d tail =>
    rw [List.dropWhile_cons]
    simp [hall d (by simp)]

theorem trimSpace_space_cons (ds : List Char) (hne : ds ≠ [])
    (hall : ∀ c ∈ ds, isGoSpace c = false) : trimSpace (' ' :: ds) = ds := by
  simp only [trimSpace, List.dropWhile_cons, show isGoSpace ' ' = true by decide, if_true,
    ite_true]
  rw [dropWhile_nonspace ds hall]
  exact rtrim_nonspace ds hne hall

theorem rtrim_space_cons (ds : List Char) (hne : ds ≠ [])
    (hall : ∀ c ∈ ds, isGoSpace c = false) : rtrimSpace (' ' :: ds) = ' ' :: ds := by
  obtain ⟨d, tail, hrev⟩ : ∃ d tail, ds.reverse = d :: tail := by
    cases hds : ds.reverse with
    | nil => exact absurd (by simpa using congrArg List.reverse hds) hne
    | cons d tail => exact ⟨d, tail, rfl⟩
  have hd : isGoSpace d = false := by
    apply hall
    have hmem : d ∈ ds.reverse := by rw [hrev]; simp
    simpa using hmem
  have hds : ds = tail.reverse ++ [d] := by
    have := congrArg List.reverse hrev
    simpa using this
  simp only [rtrimSpace, List.reverse_cons, hrev]
  rw [show (d :: tail) ++ [' '] = d :: (tail ++ [' ']) from rfl, List.dropWhile_cons]
  simp only [hd, Bool.false_eq_true, if_false, ite_false]
  rw [hds]
  simp

theorem goAtoi_natChars (L : Nat) : goAtoi (natChars L) = some (L : Int) := by
  obtain ⟨c, cs, hcons, hdig⟩ := natChars_cons L
  obtain ⟨_, _, _, hplus, hminus, _⟩ := digitChar_aux c hdig
  have hdx : digitsAux 0 (natChars L) = (L, []) := by
    have := digitsAux_natCharsF (L + 1) L 0 [] (by omega)
    simpa [digitsAux] using this
  rw [hcons] at hdx ⊢
  simp only [goAtoi, hplus, hminus, if_false, ite_false]
  simp [allDigits, hdx]

end jsonrpc

theorem natCharsF_digits :
    ∀ fuel n, n < fuel → ∀ c ∈ natCharsF fuel n, isDigitChar c = true := by
  intro fuel
  induction fuel with
  | zero => omega
  | succ f IH =>
    intro n hn c hc
    by_cases h10 : n < 10
    · simp [natCharsF, h10] at hc
      exact hc ▸ (digitChar_facts n h10).1
    · have hdiv : n / 10 < f := by
        have h1 : n / 10 < n := Nat.div_lt_self (by omega) (by omega)
        omega
      simp [natCharsF, h10] at hc
      rcases hc with hc | hc
      · exact IH (n / 10) hdiv c hc
      · exact hc ▸ (digitChar_facts (n % 10) (Nat.mod_lt n (by omega))).1

namespace jsonrpc

theorem natChars_nonspace (L : Nat) :
    ∀ c ∈ natChars L, isGoSpace c = false := by
  intro c hc
  exact (digitChar_aux c (natCharsF_digits (L + 1) L (by omega) c hc)).1

theorem readHeadersF_blank (f : Nat) (rest : List Char) (cl : Option Int) :
    readHeadersF (f + 1) ('\r' :: '\n' :: rest) cl = .ok (cl, rest) := by
  have hrl : readLine ('\r' :: '\n' :: rest) = some (['\r', '\n'], rest) := by
    simp [readLine]
  simp [readHeadersF, hrl, show trimSpace ['\r', '\n'] = [] by decide]

theorem header_line_read (name v rest : List Char)
    (hnnl : '\n' ∉ name) (hvnl : '\n' ∉ v) :
    readLine ((name ++ ':' :: v ++ ['\r', '\n']) ++ rest) =
      some ((name ++ ':' :: v) ++ ['\r', '\n'], rest) := by
  have hnl : '\n' ∉ name ++ ':' :: v ++ ['\r'] := by
    intro hm
    simp only [List.mem_append, List.mem_cons, List.mem_singleton] at hm
    rcases hm with ((h | h | h) | h) <;>
      first
      | exact hnnl h
      | exact hvnl h
      | exact absurd h (by decide)
  have h := readLine_append_nl (name ++ ':' :: v ++ ['\r']) rest hnl
  rw [show (name ++ ':' :: v ++ ['\r']) ++ '\n' :: rest =
      (name ++ ':' :: v ++ ['\r', '\n']) ++ rest by simp] at h
  rw [h]
  simp

theorem readHeadersF_skip (f : Nat) (name v rest : List Char) (cl : Option Int)
    (hnall : ∀ c ∈ name, isGoSpace c = false ∧ ¬ c = ':' ∧ ¬ c = '\n')
    (hvnl : '\n' ∉ v)
    (hfold : eqFold name clName = false) :
    ∀ c0 n', name = c0 :: n' →
      readHeadersF (f + 1) ((name ++ ':' :: v ++ ['\r', '\n']) ++ rest) cl =
        readHeadersF f rest cl := by
  rintro c0 n' rfl
  have hline := header_line_read (c0 :: n') v rest
    (fun hm => (hnall '\n' hm).2.2 rfl) hvnl
  simp only [readHeadersF, hline]
  rw [trim_header_line n' v c0 (hnall c0 (by simp)).1]
  have hsplit := splitColon_append (c0 :: n') (rtrimSpace v)
    (fun hm => (hnall ':' hm).2.1 rfl)
  simp only [List.cons_append, List.append_eq, List.nil_append] at hsplit ⊢
  simp only [hsplit]
  rw [trimSpace_nonspace (c0 :: n') (by simp) (fun c hc => (hnall c hc).1)]
  simp [hfold]

theorem readHeadersF_cl (f : Nat) (name ds rest : List Char) (cl : Option Int)
    (hnall : ∀ c ∈ name, isGoSpace c = false ∧ ¬ c = ':' ∧ ¬ c = '\n')
    (hdne : ds ≠ []) (hdall : ∀ c ∈ ds, isGoSpace c = false)
    (hfold : eqFold name clName = true) :
    ∀ c0 n', name = c0 :: n' →
      readHeadersF (f + 1) ((name ++ ':' :: ' ' :: ds ++ ['\r', '\n']) ++ rest) cl =
        match goAtoi ds with
        | none => Except.error ReadErr.badContentLength
        | some n => readHeadersF f rest (some n) := by
  rintro c0 n' rfl
  have hdnl : '\n' ∉ ' ' :: ds := by
    simp only [List.mem_cons]
    rintro (h | h)
    · exact absurd h.symm (by decide)
    · exact absurd (hdall '\n' h) (by decide)
  have hline := header_line_read (c0 :: n') (' ' :: ds) rest
    (fun hm => (hnall '\n' hm).2.2 rfl) hdnl
  simp only [readHeadersF, hline]
  rw [trim_header_line n' (' ' :: ds) c0 (hnall c0 (by simp)).1]
  rw [rtrim_space_cons ds hdne hdall]
  have hsplit := splitColon_append (c0 :: n') (' ' :: ds)
    (fun hm => (hnall ':' hm).2.1 rfl)
  simp only [List.cons_append, List.append_eq, List.nil_append] at hsplit ⊢
  simp only [hsplit]
  rw [trimSpace_nonspace (c0 :: n') (by simp) (fun c hc => (hnall c hc).1)]
  rw [trimSpace_space_cons ds hdne hdall]
  simp [hfold]

theorem clName_facts :
    ∀ c ∈ clName, isGoSpace c = false ∧ ¬ c = ':' ∧ ¬ c = '\n' := by decide

end jsonrpc

namespace jsonrpc

/-- Once the headers produce exactly the body's length, `Stream.Read` returns
the original message. -/
theorem streamRead_of_headers (input : List Char) (m : Message)
    (hid : m.id ≠ some ID.null)
    (h : readHeaders input =
      .ok (some ((encodeJson (messageToJson m)).length : Int), encodeJson (messageToJson m))) :
    streamRead input = .ok (m, []) := by
  simp only [streamRead, h]
  have h0 : ¬ ((encodeJson (messageToJson m)).length : Int) < 0 := by omega
  simp only [h0, if_false, ite_false, Int.toNat_ofNat, Int.toNat_natCast]
  simp only [show ¬ (encodeJson (messageToJson m)).length <
      (encodeJson (messageToJson m)).length from by omega, if_false, ite_false,
    List.take_length, List.drop_length]
  rw [jsonParse_encodeJson]
  simp [msgFromJson_messageToJson m hid]

/-- `Stream.Read` inverts `Stream.Write`, provided the message id is not the
null id. -/
theorem streamRead_streamWrite_aux (m : Message) (hid : m.id ≠ some ID.null) :
    streamRead (streamWrite m) = .ok (m, []) := by
  set body := encodeJson (messageToJson m) with hbody
  have hshape : streamWrite m =
      (clName ++ ':' :: ' ' :: natChars body.length ++ ['\r', '\n']) ++
        ('\r' :: '\n' :: body) := by
    simp [streamWrite, hbody]
  apply streamRead_of_headers _ _ hid
  rw [show readHeaders (streamWrite m) =
      readHeadersF ((streamWrite m).length + 1) (streamWrite m) none from rfl]
  obtain ⟨c, cs, hcons, _⟩ := natChars_cons body.length
  rw [hshape]
  rw [readHeadersF_cl _ clName (natChars body.length) ('\r' :: '\n' :: body) none
    clName_facts (by rw [hcons]; simp) (natChars_nonspace body.length)
    (by decide) 'C' "ontent-Length".data (by decide)]
  rw [goAtoi_natChars]
  have hcl14 : clName.length = 14 := by decide
  have hne0 : ((clName ++ ':' :: ' ' :: natChars body.length ++ ['\r', '\n']) ++
      ('\r' :: '\n' :: body)).length ≠ 0 := by
    simp [List.length_append, hcl14]
  rcases Nat.exists_eq_succ_of_ne_zero hne0 with ⟨f2, hf2⟩
  rw [hf2]
  simp only [Nat.succ_eq_add_one]
  simp [readHeadersF_blank]

end jsonrpc

instance exceptDecEq {ε α : Type} [DecidableEq ε] [DecidableEq α] :
    DecidableEq (Except ε α) := fun a b =>
  match a, b with
  | .error e, .error e' => decidable_of_iff (e = e') (by simp)
  | .error _, .ok _ => isFalse (by simp)
  | .ok _, .error _ => isFalse (by simp)
  | .ok x, .ok y => decidable_of_iff (x = y) (by simp)

/-! ## Session layer — the `Conn` type of the jsonrpc package

`Conn` keeps `pending : map[string]chan *Message` and an atomic `nextID`.
The map is modelled as a function `String → Option Nat` where `Nat` is an
opaque channel token; state is threaded explicitly.  Each operation also
returns the list of messages it writes to the peer's stream. -/

namespace jsonrpc

structure ConnState where
  pending : String → Option Nat
  nextId : Int

def ConnState.initial : ConnState := { pending := fun _ => none, nextId := 0 }

/-- The string key a response message is correlated under: `msg.ID.String()`.
`Run` dispatches to `handleResponse` only for responses, whose id is non-nil;
the nil case is totalised with an arbitrary default. -/
def respKey (msg : Message) : String := (msg.id.map ID.String).getD ""

/-- `Conn.handleResponse`: look the response id's string key up in `pending`;
if present, remove the entry and deliver the message to exactly that slot,
else drop the message.  The last component is what the function writes to the
peer — always nothing. -/
def handleResponse (st : ConnState) (msg : Message) :
    ConnState × Option (Nat × Message) × List Message :=
  match st.pending (respKey msg) with
  | some ch =>
      ({ st with pending := fun k => if k = respKey msg then none else st.pending k },
        some (ch, msg), [])
  | none => (st, none, [])

/-- Outcome of the user-supplied inbound handler: Go's `(*Message, error)`. -/
inductive HandlerResult where
  | err (e : String) : HandlerResult
  | ok (resp : Option Message) : HandlerResult

/-- `Conn.handleMessage`: the messages written to the peer.  A handler error
on a request produces an InternalError response carrying the error text; a
handler error on anything else writes nothing; a nil response writes
nothing; a non-nil response is written back. -/
def handleMessage (handler : Option (Message → HandlerResult)) (msg : Message) :
    List Message :=
  match handler with
  | none => []
  | some h =>
      match h msg with
      | .err e =>
          if msg.IsRequest then
            [NewErrorResponse (msg.id.getD ID.null) InternalError e none]
          else []
      | .ok none => []
      | .ok (some r) => [r]

/-- How a `Conn.Call` concludes: `ctx.Done()` fires first, or the response
arrives on the pending channel. -/
inductive CallOutcome where
  | cancelled : CallOutcome
  | responded (resp : Message) : CallOutcome

inductive CallResult where
  | ctxErr : CallResult
  | rpcErr (e : Error) : CallResult
  | ok (result : Option Json) : CallResult
deriving DecidableEq

/-- `Conn.Call`: mint the next numeric id, register a capacity-1 pending slot
under the id's string key, write the request, then select on the context and
the slot.  On cancellation the slot is deleted and the context error is
returned — nothing further is written.  On a response, the result or the
error payload is surfaced; the read loop's `handleResponse` removed the slot
before delivering.  Returns (state, result, messages written). -/
def connCall (st : ConnState) (method : String) (params : Option Json)
    (outcome : CallOutcome) : ConnState × CallResult × List Message :=
  let id := ID.num (st.nextId + 1)
  let key := ID.String id
  let msg := NewRequest id method params
  let ch := (st.nextId + 1).toNat
  let st2 : ConnState :=
    { pending := fun k => if k = key then some ch else st.pending k,
      nextId := st.nextId + 1 }
  match outcome with
  | .cancelled =>
      ({ st2 with pending := fun k => if k = key then none else st2.pending k },
        .ctxErr, [msg])
  | .responded resp =>
      ({ st2 with pending := fun k => if k = key then none else st2.pending k },
        (match resp.error with
         | some e => .rpcErr e
         | none => .ok resp.result), [msg])

end jsonrpc

/-! ## File matching — `internal/filematch`

Globs are compiled once at registration by the external gobwas/glob library;
a compiled glob is modelled as a predicate `String → Bool`. -/

namespace filematch

/-- `strings.ToLower`, ASCII folding. -/
def toLowerStr (s : String) : String := String.mk (s.data.map Char.toLower)

/-- Extension normalisation used at registration and lookup: lowercase and
ensure a leading dot. -/
def normalizeExt (e : String) : String :=
  let l := toLowerStr e
  if l.startsWith "." then l else "." ++ l

/-- `filepath.Base`: strip trailing slashes, take the last path element;
`"."` for the empty path, `"/"` for all-slash paths. -/
def basename (p : String) : String :=
  if p = "" then "."
  else
    let stripped := (p.data.reverse.dropWhile (fun c => c == '/')).reverse
    if stripped = [] then "/"
    else String.mk (stripped.reverse.takeWhile (fun c => c != '/')).reverse

structure Matcher where
  extensions : List String
  patterns : List (String → Bool)
  languageIDs : List String

/-- `filematch.New`: lowercase and dot-prefix the extensions, lowercase the
language ids; the glob patterns arrive already compiled. -/
def Matcher.new (extensions : List String) (patterns : List (String → Bool))
    (languageIDs : List String) : Matcher :=
  { extensions := extensions.map normalizeExt,
    patterns := patterns,
    languageIDs := languageIDs.map toLowerStr }

def Matcher.MatchesExtension (m : Matcher) (ext : String) : Bool :=
  if m.extensions.isEmpty then false
  else m.extensions.contains (normalizeExt ext)

def Matcher.MatchesPattern (m : Matcher) (path : String) : Bool :=
  if m.patterns.isEmpty then false
  else m.patterns.any (fun g => g (basename path) || g path)

def Matcher.MatchesLanguageID (m : Matcher) (langID : String) : Bool :=
  if m.languageIDs.isEmpty then false
  else m.languageIDs.contains (toLowerStr langID)

def Matcher.Matches (m : Matcher) (path ext languageID : String) : Bool :=
  (languageID != "" && m.MatchesLanguageID languageID) ||
  (ext != "" && m.MatchesExtension ext) ||
  (path != "" && m.MatchesPattern path)

structure NamedMatcher where
  name : String
  matcher : Matcher

structure MatcherSet where
  matchers : List NamedMatcher

/-- `MatcherSet.Match`: the first registered matcher that accepts wins;
empty string when none does. -/
def MatcherSet.Match (ms : MatcherSet) (path ext languageID : String) : String :=
  match ms.matchers.find? (fun nm => nm.matcher.Matches path ext languageID) with
  | some nm => nm.name
  | none => ""

end filematch

/-! ## Capability aggregation — `internal/capabilities` -/

namespace capabilities

structure CompletionOptions where
  triggerCharacters : List String
deriving DecidableEq

/-- Modelled from the spec: the `lsp.ServerCapabilities` struct is declared
outside the embedded sources; its fields are the ones assigned by
`defaultCapabilities`, with `textDocumentSync` in the numeric LSP encoding
(1 = Full sync). -/
structure ServerCapabilities where
  textDocumentSync : Nat
  hoverProvider : Bool
  completionProvider : Option CompletionOptions
  definitionProvider : Bool
  typeDefinitionProvider : Bool
  implementationProvider : Bool
  referencesProvider : Bool
  documentSymbolProvider : Bool
  codeActionProvider : Bool
  documentFormattingProvider : Bool
  documentRangeFormattingProvider : Bool
  renameProvider : Bool
  foldingRangeProvider : Bool
  selectionRangeProvider : Bool
  workspaceSymbolProvider : Bool
deriving DecidableEq

/-- `defaultCapabilities` from the capabilities package, field for field. -/
def defaultCapabilities : ServerCapabilities :=
  { textDocumentSync := 1,
    hoverProvider := true,
    completionProvider := some { triggerCharacters := ["."] },
    definitionProvider := true,
    typeDefinitionProvider := true,
    implementationProvider := true,
    referencesProvider := true,
    documentSymbolProvider := true,
    codeActionProvider := true,
    documentFormattingProvider := true,
    documentRangeFormattingProvider := true,
    renameProvider := true,
    foldingRangeProvider := true,
    selectionRangeProvider := true,
    workspaceSymbolProvider := true }

/-- `AggregateCapabilities`: collect each named backend's readable cache and
merge, or fall back to the defaults when nothing was collected.  `LoadCache`
(file I/O, outside the embedded sources) is the oracle `loadCache`, already
collapsed to the capability set it carries, and `lsp.MergeCapabilities`
(also outside the embedded sources) is the parameter `merge`. -/
def AggregateCapabilities (loadCache : String → Option ServerCapabilities)
    (merge : List ServerCapabilities → ServerCapabilities)
    (names : List String) : ServerCapabilities :=
  let caps := names.filterMap loadCache
  if caps.isEmpty then defaultCapabilities else merge caps

end capabilities

/-! ## Backend pool — `internal/subprocess/pool.go`

The per-instance state machine of `Register` / `GetOrStart` / `Stop`.
External I/O (nix build, process spawn, the initialize round-trip) is
summarised by a `StartOutcome` parameter; process, session and capability
pointers are opaque tokens, so only their nil-ness is tracked. -/

namespace subprocess

inductive LSPState where
  | idle | starting | running | stopping | stopped | failed
deriving DecidableEq

structure LSPInstance where
  name : String
  flake : String
  args : List String
  state : LSPState
  process : Option Nat
  conn : Option Nat
  capabilities : Option Nat
  error : Option String
deriving DecidableEq

/-- `Pool.Register`: a fresh Idle instance, no process started. -/
def registerInst (name flake : String) (args : List String) : LSPInstance :=
  { name := name, flake := flake, args := args, state := .idle,
    process := none, conn := none, capabilities := none, error := none }

/-- Which step of the start sequence fails, if any.  The three initialize
outcomes only arise when `initParams` is non-nil. -/
inductive StartOutcome where
  | buildFail (e : String)
  | execFail (e : String)
  | initCallFail (e : String)
  | initParseFail (e : String)
  | initNotifyFail (e : String)
  | startOk
deriving DecidableEq

/-- `Pool.GetOrStart` on one instance: Running returns immediately; Starting
waits without mutating; otherwise the start sequence runs — Build, Execute,
assignment of `inst.Process` and `inst.Conn`, then (with init params) the
initialize call, result parse and initialized notification, then Running.
A failure records the error and sets Failed; failures after Execute kill the
process but the `Process`/`Conn` fields are not cleared (pool.go lines
156–181).  Returns (instance, success). -/
def getOrStart (inst : LSPInstance) (hasInitParams : Bool) (o : StartOutcome) :
    LSPInstance × Bool :=
  match inst.state with
  | .running => (inst, true)
  | .starting => (inst, true)
  | _ =>
      match o with
      | .buildFail e => ({ inst with state := .failed, error := some e }, false)
      | .execFail e => ({ inst with state := .failed, error := some e }, false)
      | o' =>
          let inst1 := { inst with process := some 0, conn := some 0 }
          if hasInitParams then
            match o' with
            | .initCallFail e => ({ inst1 with state := .failed, error := some e }, false)
            | .initParseFail e => ({ inst1 with state := .failed, error := some e }, false)
            | .initNotifyFail e =>
                ({ inst1 with capabilities := some 0, state := .failed, error := some e },
                  false)
            | _ =>
                ({ inst1 with capabilities := some 0, state := .running, error := none },
                  true)
          else ({ inst1 with state := .running, error := none }, true)

/-- `Pool.Stop` on one instance: a no-op unless Running; otherwise shutdown,
exit, close and kill run inside, and the instance ends Stopped with
`Process`, `Conn` and `Capabilities` cleared. -/
def stopInst (inst : LSPInstance) : LSPInstance :=
  if inst.state = .running then
    { inst with state := .stopped, process := none, conn := none, capabilities := none }
  else inst

/-- The claimed pointer invariant: `Process` and `Conn` are non-null exactly
in states Running and Stopping. -/
def pcInv (inst : LSPInstance) : Prop :=
  (inst.process.isSome = true ∧ inst.conn.isSome = true) ↔
    (inst.state = .running ∨ inst.state = .stopping)

instance (inst : LSPInstance) : Decidable (pcInv inst) := by
  unfold pcInv
  infer_instance

/-- A Go context, modelled by the set of cancellation tokens that can cancel
it: its own and all of its ancestors'. -/
structure Ctx where
  tokens : List Nat
deriving DecidableEq

/-- `context.WithCancel(parent)` with a fresh token for the new cancel
function. -/
def withCancel (parent : Ctx) (tok : Nat) : Ctx := ⟨tok :: parent.tokens⟩

/-- A context is cancelled as soon as any of its tokens has fired. -/
def ctxCancelled (c : Ctx) (fired : Nat → Bool) : Bool := c.tokens.any fired

/-- pool.go line 128: `inst.ctx, inst.cancel = context.WithCancel(ctx)` —
the instance's start context is created as a child of the context the
demanding caller passed to `GetOrStart`. -/
def instStartCtx (demanderCtx : Ctx) (instTok : Nat) : Ctx :=
  withCancel demanderCtx instTok

end subprocess

namespace jsonrpc

/-- Rendering of a block of header lines, each `name: value\r\n`. -/
def renderHeaders : List (List Char × List Char) → List Char
  | [] => []
  | (n, v) :: hs => (n ++ ':' :: v ++ ['\r', '\n']) ++ renderHeaders hs

/-- Well-formedness of an ignored header: non-empty name of non-space,
non-colon, non-newline characters, no newline in the value, and a name that
does not case-fold to Content-Length. -/
def ignoredHeader (p : List Char × List Char) : Prop :=
  p.1 ≠ [] ∧ (∀ c ∈ p.1, isGoSpace c = false ∧ ¬ c = ':' ∧ ¬ c = '\n') ∧
    '\n' ∉ p.2 ∧ eqFold p.1 clName = false

instance (p : List Char × List Char) : Decidable (ignoredHeader p) := by
  unfold ignoredHeader
  infer_instance

theorem readHeadersF_skipAll :
    ∀ hs f cl tail, (∀ p ∈ hs, ignoredHeader p) → hs.length < f →
      readHeadersF f (renderHeaders hs ++ tail) cl =
        readHeadersF (f - hs.length) tail cl := by
  intro hs
  induction hs with
  | nil => intro f cl tail _ _; simp [renderHeaders]
  | cons p hs IH =>
    intro f cl tail hall hf
    obtain ⟨n, v⟩ := p
    obtain ⟨hne, hnall, hvnl, hfold⟩ := hall (n, v) (by simp)
    obtain ⟨c0, n', rfl⟩ : ∃ c0 n', n = c0 :: n' := by
      cases n with
      | nil => exact absurd rfl hne
      | cons c0 n' => exact ⟨c0, n', rfl⟩
    obtain ⟨f', rfl⟩ : ∃ f', f = f' + 1 := by
      cases f with
      | zero => omega
      | succ f' => exact ⟨f', rfl⟩
    rw [show renderHeaders (((c0 :: n'), v) :: hs) ++ tail =
        ((c0 :: n') ++ ':' :: v ++ ['\r', '\n']) ++ (renderHeaders hs ++ tail) by
      simp [renderHeaders]]
    rw [readHeadersF_skip f' (c0 :: n') v (renderHeaders hs ++ tail) cl hnall hvnl hfold
      c0 n' rfl]
    rw [IH f' cl tail (fun q hq => hall q (by simp [hq])) (by simpa using hf)]
    have h2 : f' + 1 - (hs.length + 1) = f' - hs.length := by omega
    simp [h2]

theorem renderHeaders_length (hs : List (List Char × List Char)) :
    hs.length ≤ (renderHeaders hs).length := by
  induction hs with
  | nil => simp [renderHeaders]
  | cons p hs IH =>
    obtain ⟨n, v⟩ := p
    simp [renderHeaders, List.length_append]
    omega

/-- Reading the headers of a well-formed `Content-Length` frame. -/
theorem readHeaders_clframe (n : Nat) (tail : List Char) :
    readHeaders ((clName ++ ':' :: ' ' :: natChars n ++ ['\r', '\n']) ++
      ('\r' :: '\n' :: tail)) = .ok (some (n : Int), tail) := by
  rw [show readHeaders ((clName ++ ':' :: ' ' :: natChars n ++ ['\r', '\n']) ++
      ('\r' :: '\n' :: tail)) =
    readHeadersF (((clName ++ ':' :: ' ' :: natChars n ++ ['\r', '\n']) ++
      ('\r' :: '\n' :: tail)).length + 1)
      ((clName ++ ':' :: ' ' :: natChars n ++ ['\r', '\n']) ++
        ('\r' :: '\n' :: tail)) none from rfl]
  obtain ⟨c, cs, hcons, _⟩ := natChars_cons n
  rw [readHeadersF_cl _ clName (natChars n) ('\r' :: '\n' :: tail) none
    clName_facts (by rw [hcons]; simp) (natChars_nonspace n)
    (by decide) 'C' "ontent-Length".data (by decide)]
  rw [goAtoi_natChars]
  have hcl14 : clName.length = 14 := by decide
  have hne0 : ((clName ++ ':' :: ' ' :: natChars n ++ ['\r', '\n']) ++
      ('\r' :: '\n' :: tail)).length ≠ 0 := by
    simp [List.length_append, hcl14]
  rcases Nat.exists_eq_succ_of_ne_zero hne0 with ⟨f2, hf2⟩
  rw [hf2]
  simp only [Nat.succ_eq_add_one]
  simp [readHeadersF_blank]

end jsonrpc

/-- `List.find?` only depends on the predicate pointwise. -/
theorem find?_congruence {α : Type} (p q : α → Bool) (h : ∀ a, p a = q a) :
    ∀ l : List α, l.find? p = l.find? q := by
  intro l
  induction l with
  | nil => rfl
  | cons a l IH =>
    simp only [List.find?]
    rw [h a]
    cases q a <;> simp [IH]

namespace jsonrpc

theorem readHeaders_noCL (hs : List (List Char × List Char)) (rest : List Char)
    (hall : ∀ p ∈ hs, ignoredHeader p) :
    readHeaders (renderHeaders hs ++ '\r' :: '\n' :: rest) = .ok (none, rest) := by
  have hr := renderHeaders_length hs
  have hlenX : (renderHeaders hs ++ '\r' :: '\n' :: rest).length =
      (renderHeaders hs).length + rest.length + 2 := by
    simp [List.length_append]
    omega
  rw [show readHeaders (renderHeaders hs ++ '\r' :: '\n' :: rest) =
    readHeadersF ((renderHeaders hs ++ '\r' :: '\n' :: rest).length + 1)
      (renderHeaders hs ++ '\r' :: '\n' :: rest) none from rfl]
  rw [readHeadersF_skipAll hs _ none _ hall (by rw [hlenX]; omega)]
  obtain ⟨f2, hf2⟩ : ∃ f2,
      (renderHeaders hs ++ '\r' :: '\n' :: rest).length + 1 - hs.length = f2 + 1 := by
    refine ⟨(renderHeaders hs ++ '\r' :: '\n' :: rest).length + 1 - hs.length - 1, ?_⟩
    rw [hlenX]
    omega
  rw [hf2, readHeadersF_blank]

theorem readHeaders_gen (hs : List (List Char × List Char)) (name : List Char)
    (c0 : Char) (n' : List Char) (hname : name = c0 :: n')
    (hnall : ∀ c ∈ name, isGoSpace c = false ∧ ¬ c = ':' ∧ ¬ c = '\n')
    (hfold : eqFold name clName = true)
    (hall : ∀ p ∈ hs, ignoredHeader p) (n : Nat) (tail : List Char) :
    readHeaders (renderHeaders hs ++
      ((name ++ ':' :: ' ' :: natChars n ++ ['\r', '\n']) ++ ('\r' :: '\n' :: tail))) =
      .ok (some (n : Int), tail) := by
  have hr := renderHeaders_length hs
  obtain ⟨d, ds', hdcons, _⟩ := natChars_cons n
  have hlenX : (renderHeaders hs ++
      ((name ++ ':' :: ' ' :: natChars n ++ ['\r', '\n']) ++ ('\r' :: '\n' :: tail))).length =
      (renderHeaders hs).length + (name.length + (natChars n).length + tail.length + 6) := by
    simp [List.length_append]
    omega
  rw [show readHeaders (renderHeaders hs ++
      ((name ++ ':' :: ' ' :: natChars n ++ ['\r', '\n']) ++ ('\r' :: '\n' :: tail))) =
    readHeadersF ((renderHeaders hs ++
      ((name ++ ':' :: ' ' :: natChars n ++ ['\r', '\n']) ++ ('\r' :: '\n' :: tail))).length + 1)
      (renderHeaders hs ++
        ((name ++ ':' :: ' ' :: natChars n ++ ['\r', '\n']) ++ ('\r' :: '\n' :: tail)))
      none from rfl]
  rw [readHeadersF_skipAll hs _ none _ hall (by rw [hlenX]; omega)]
  obtain ⟨f2, hf2⟩ : ∃ f2, (renderHeaders hs ++
      ((name ++ ':' :: ' ' :: natChars n ++ ['\r', '\n']) ++
        ('\r' :: '\n' :: tail))).length + 1 - hs.length = (f2 + 1) + 1 := by
    refine ⟨(renderHeaders hs ++
      ((name ++ ':' :: ' ' :: natChars n ++ ['\r', '\n']) ++
        ('\r' :: '\n' :: tail))).length + 1 - hs.length - 2, ?_⟩
    rw [hlenX]
    omega
  rw [hf2]
  rw [readHeadersF_cl (f2 + 1) name (natChars n) ('\r' :: '\n' :: tail) none hnall
    (by rw [hdcons]; simp) (natChars_nonspace n) hfold c0 n' hname]
  rw [goAtoi_natChars]
  simp [readHeadersF_blank]

/-- Reading a frame whose header announces `n` while only `body` follows. -/
theorem streamRead_body (n : Nat) (body : List Char) :
    streamRead ((clName ++ ':' :: ' ' :: natChars n ++ ['\r', '\n']) ++
      ('\r' :: '\n' :: body)) =
      (if body.length < n then .error .bodyEof
       else
        match jsonParse (body.take n) with
        | none => .error .parseFail
        | some j =>
            match msgFromJson j with
            | none => .error .parseFail
            | some m => .ok (m, body.drop n)) := by
  simp only [streamRead, readHeaders_clframe n body]
  have h0 : ¬ ((n : Nat) : Int) < 0 := by omega
  simp [h0, Int.toNat_ofNat, Int.toNat_natCast]

end jsonrpc

namespace filematch

/-- The acceptance condition of one matcher exactly as the claim words it:
non-empty language id whose lowercase form is in the `languageIds` set, or a
non-empty extension whose lowercased dot-prefixed normalisation is in the
`extensions` set, or a non-empty path one of whose compiled globs matches the
basename or the full path. -/
def claimAccepts (m : Matcher) (p e l : String) : Bool :=
  (l != "" && m.languageIDs.contains (toLowerStr l)) ||
  (e != "" && m.extensions.contains (normalizeExt e)) ||
  (p != "" && m.patterns.any (fun g => g (basename p) || g p))

theorem matches_eq_claimAccepts (m : Matcher) (p e l : String) :
    m.Matches p e l = claimAccepts m p e l := by
  obtain ⟨ex, pa, li⟩ := m
  cases ex <;> cases pa <;> cases li <;>
    simp [Matcher.Matches, Matcher.MatchesExtension, Matcher.MatchesPattern,
      Matcher.MatchesLanguageID, claimAccepts]

end filematch

/-! ## Claim theorems -/

open jsonrpc filematch capabilities subprocess

/-- C1 (counterexample): a concrete `Conn.Call` whose context is cancelled
writes only the original request to the peer — no `$/cancelRequest`
notification carrying the minted id is ever written, contradicting the claim
as stated. -/
theorem conn_call_cancel_no_cancelRequest :
    ((connCall ConnState.initial "textDocument/references" none .cancelled).2.2 =
      [NewRequest (ID.num 1) "textDocument/references" none]) ∧
    (¬ ∃ w ∈ (connCall ConnState.initial "textDocument/references" none .cancelled).2.2,
      w.method = "$/cancelRequest") := by
  constructor
  · decide
  · decide

/-- C1 (amended): when the context of a `Conn.Call` is cancelled before the
response arrives, the pending slot registered under the minted id is removed
and the cancellation reason (`ctx.Err()`) is returned to the caller; the only
message written to the peer during the call is the original request — in
particular no `$/cancelRequest` notification is sent. -/
theorem conn_call_cancel_behaviour (st : ConnState) (method : String)
    (params : Option Json) :
    (connCall st method params .cancelled).1.pending
      (ID.String (ID.num (st.nextId + 1))) = none ∧
    (connCall st method params .cancelled).2.1 = .ctxErr ∧
    (connCall st method params .cancelled).2.2 =
      [NewRequest (ID.num (st.nextId + 1)) method params] := by
  refine ⟨?_, rfl, rfl⟩
  simp [connCall]

/-- Does this outcome model a failure of the initialize phase? -/
def StartOutcome.isInitFail : StartOutcome → Bool
  | .initCallFail _ => true
  | .initParseFail _ => true
  | .initNotifyFail _ => true
  | _ => false

/-- C2 (counterexample): a `GetOrStart` whose initialize call fails leaves
the instance Failed with `Process` and `Conn` still non-null, so the claimed
invariant — non-null iff Running or Stopping — does not hold after every pool
operation. -/
theorem pool_initFail_breaks_invariant :
    ((getOrStart (registerInst "gopls" "github:gopls" []) true
        (.initCallFail "initialize failed")).1.state = .failed) ∧
    ((getOrStart (registerInst "gopls" "github:gopls" []) true
        (.initCallFail "initialize failed")).1.process.isSome = true) ∧
    ((getOrStart (registerInst "gopls" "github:gopls" []) true
        (.initCallFail "initialize failed")).1.conn.isSome = true) ∧
    ¬ pcInv (getOrStart (registerInst "gopls" "github:gopls" []) true
        (.initCallFail "initialize failed")).1 := by
  refine ⟨by decide, by decide, by decide, by decide⟩

/-- C2 (amended): the pointer invariant — `Process` and `Conn` non-null iff
the state is Running or Stopping, with pointers cleared on Stopped — holds
after `Register`, after `Stop`, and after any `GetOrStart` that does not fail
in the initialize phase; but a `GetOrStart` failing at the initialize call,
result parse or initialized notification leaves the instance Failed with
`Process` and `Conn` still non-null (pool.go lines 156–181 set State without
clearing the pointers). -/
theorem pool_pointer_invariant_amended :
    (∀ n f a, pcInv (registerInst n f a)) ∧
    (∀ inst, pcInv inst → pcInv (stopInst inst)) ∧
    (∀ inst hp o, pcInv inst → inst.state ≠ .stopping →
      StartOutcome.isInitFail o = false → pcInv (getOrStart inst hp o).1) ∧
    (∀ inst e, (inst.state = .idle ∨ inst.state = .stopped ∨ inst.state = .failed) →
      (getOrStart inst true (.initCallFail e)).1.state = .failed ∧
      (getOrStart inst true (.initCallFail e)).1.process = some 0 ∧
      (getOrStart inst true (.initCallFail e)).1.conn = some 0) := by
  refine ⟨?_, ?_, ?_, ?_⟩
  · intro n f a
    simp [pcInv, registerInst]
  · intro inst h
    obtain ⟨n, f, a, st, pr, co, ca, er⟩ := inst
    by_cases hr : st = .running
    · subst hr
      simp [stopInst, pcInv]
    · simpa [stopInst, hr] using h
  · intro inst hp o hinv hns hno
    obtain ⟨n, f, a, st, pr, co, ca, er⟩ := inst
    cases st <;> cases o <;> cases hp <;>
      first
      | exact absurd rfl hns
      | (unfold pcInv at hinv ⊢; simp_all [getOrStart, StartOutcome.isInitFail])
  · intro inst e hstate
    obtain ⟨n, f, a, st, pr, co, ca, er⟩ := inst
    rcases hstate with h | h | h <;> (simp only at h; subst h; simp [getOrStart])

/-- C2 (amended) witness at concrete instances. -/
theorem pool_pointer_invariant_amended_witness :
    pcInv (registerInst "gopls" "github:gopls" []) ∧
    pcInv (stopInst (registerInst "gopls" "github:gopls" [])) ∧
    pcInv (getOrStart (registerInst "gopls" "github:gopls" []) true .startOk).1 ∧
    (getOrStart (registerInst "gopls" "github:gopls" []) true
      (.initCallFail "boom")).1.state = .failed :=
  ⟨pool_pointer_invariant_amended.1 "gopls" "github:gopls" [],
   pool_pointer_invariant_amended.2.1 _
     (pool_pointer_invariant_amended.1 "gopls" "github:gopls" []),
   pool_pointer_invariant_amended.2.2.1 _ true .startOk
     (pool_pointer_invariant_amended.1 "gopls" "github:gopls" []) (by decide) (by decide),
   (pool_pointer_invariant_amended.2.2.2 _ "boom" (Or.inl (by decide))).1⟩

/-- C3: evaluating pool.go line 128 — the instance start context is created
by `context.WithCancel(ctx)` from the demanding caller's context, so firing
any cancellation token of the first demander's context cancels the start
context, even though the instance's own token (the `Stop` path) has not
fired.  This contradicts the claim that the start context is parented from
the process-wide root and cancelled only when the instance is stopped. -/
theorem pool_startctx_dies_with_demander (demanderCtx : Ctx) (instTok : Nat)
    (fired : Nat → Bool) (h : ctxCancelled demanderCtx fired = true) :
    ctxCancelled (instStartCtx demanderCtx instTok) fired = true := by
  simp only [instStartCtx, withCancel, ctxCancelled, List.any_cons]
  simp only [ctxCancelled] at h
  simp [h]

/-- C3 witness: the demander's token 0 has fired, the instance's own token 1
has not (the instance was never stopped), yet the start context is
cancelled. -/
theorem pool_startctx_dies_with_demander_witness :
    (fun t => t == 0) 1 = false ∧
    ctxCancelled (instStartCtx ⟨[0]⟩ 1) (fun t => t == 0) = true :=
  ⟨by decide, pool_startctx_dies_with_demander ⟨[0]⟩ 1 _ (by decide)⟩

/-- C4: `MatcherSet.Match` returns the name of the first matcher in
registration order accepting `(path, ext, languageId)` and `""` when none
does, where acceptance is exactly the claim's condition (non-empty language
id lowercased in the `languageIds` set, or non-empty extension normalised
into the `extensions` set, or non-empty path with a glob matching basename
or full path); a matcher whose three subfields are all empty accepts
nothing. -/
theorem matcherset_match_first_accepting :
    (∀ m p e l, Matcher.Matches m p e l = claimAccepts m p e l) ∧
    (∀ ms p e l, MatcherSet.Match ms p e l =
      (match ms.matchers.find? (fun nm => claimAccepts nm.matcher p e l) with
       | some nm => nm.name
       | none => "")) ∧
    (∀ p e l,
      Matcher.Matches { extensions := [], patterns := [], languageIDs := [] } p e l
        = false) := by
  refine ⟨fun m p e l => matches_eq_claimAccepts m p e l, ?_, ?_⟩
  · intro ms p e l
    unfold MatcherSet.Match
    have h := find?_congruence (fun nm : NamedMatcher => nm.matcher.Matches p e l)
      (fun nm => claimAccepts nm.matcher p e l)
      (fun nm => matches_eq_claimAccepts nm.matcher p e l) ms.matchers
    rw [h]
  · intro p e l
    simp [Matcher.Matches, Matcher.MatchesExtension, Matcher.MatchesPattern,
      Matcher.MatchesLanguageID]

/-- C5 (counterexample): framing round trip is not the identity on the
message with a null id — Go marshals the non-nil `*ID` pointing at the null
id as `"id": null`, and unmarshalling JSON null into the pointer field sets
it to nil, so the id collapses from present-null to absent. -/
theorem stream_roundtrip_null_id_collapses :
    streamRead (streamWrite (Message.mk "2.0" (some ID.null) "" none none none)) =
      .ok (Message.mk "2.0" none "" none none none, []) ∧
    Message.mk "2.0" none "" none none none ≠
      Message.mk "2.0" (some ID.null) "" none none none := by
  constructor
  · decide
  · decide

/-- C5 (amended): for every message whose id is not the null id — id absent,
integer, or string — reading back the written frame yields the message
unchanged and consumes the whole stream. -/
theorem stream_read_write_roundtrip (m : Message) (hid : m.id ≠ some ID.null) :
    streamRead (streamWrite m) = .ok (m, []) :=
  streamRead_streamWrite_aux m hid

/-- C5 (amended) witness at a request with an integer id. -/
theorem stream_read_write_roundtrip_witness :
    (Message.mk "2.0" (some (ID.num 3)) "textDocument/hover" (some (Json.obj []))
        none none).id ≠ some ID.null ∧
    streamRead (streamWrite (Message.mk "2.0" (some (ID.num 3)) "textDocument/hover"
        (some (Json.obj [])) none none)) =
      .ok (Message.mk "2.0" (some (ID.num 3)) "textDocument/hover"
        (some (Json.obj [])) none none, []) :=
  ⟨by decide, stream_read_write_roundtrip _ (by decide)⟩

/-- C6: the failure and tolerance behaviour of `Stream.Read` — (i) a header
block ending in a blank line without any Content-Length header fails, well-
formed unknown headers being skipped without failure; (ii) a Content-Length
value that `strconv.Atoi` rejects fails; (iii) end of input before the
announced number of body bytes fails; (iv) a body that is not valid JSON
fails; (v) the Content-Length header name is matched case-insensitively, and
a frame preceded by ignored headers with any case-folded spelling of the
name still reads back the written message. -/
theorem stream_read_failure_modes :
    (∀ hs rest, (∀ p ∈ hs, ignoredHeader p) →
      streamRead (renderHeaders hs ++ '\r' :: '\n' :: rest) =
        .error .missingContentLength) ∧
    (∀ v rest, v ≠ [] → (∀ c ∈ v, isGoSpace c = false) → goAtoi v = none →
      streamRead ((clName ++ ':' :: ' ' :: v ++ ['\r', '\n']) ++ rest) =
        .error .badContentLength) ∧
    (∀ n body, body.length < n →
      streamRead ((clName ++ ':' :: ' ' :: natChars n ++ ['\r', '\n']) ++
        ('\r' :: '\n' :: body)) = .error .bodyEof) ∧
    (∀ body, jsonParse body = none →
      streamRead ((clName ++ ':' :: ' ' :: natChars body.length ++ ['\r', '\n']) ++
        ('\r' :: '\n' :: body)) = .error .parseFail) ∧
    (∀ hs name c0 n' m, name = c0 :: n' →
      (∀ c ∈ name, isGoSpace c = false ∧ ¬ c = ':' ∧ ¬ c = '\n') →
      eqFold name clName = true → (∀ p ∈ hs, ignoredHeader p) →
      m.id ≠ some ID.null →
      streamRead (renderHeaders hs ++
        ((name ++ ':' :: ' ' :: natChars (encodeJson (messageToJson m)).length ++
          ['\r', '\n']) ++ ('\r' :: '\n' :: encodeJson (messageToJson m)))) =
        .ok (m, [])) := by
  refine ⟨?_, ?_, ?_, ?_, ?_⟩
  · intro hs rest hall
    simp [streamRead, readHeaders_noCL hs rest hall]
  · intro v rest hne hall hatoi
    have hhd : readHeaders ((clName ++ ':' :: ' ' :: v ++ ['\r', '\n']) ++ rest) =
        .error .badContentLength := by
      rw [show readHeaders ((clName ++ ':' :: ' ' :: v ++ ['\r', '\n']) ++ rest) =
        readHeadersF (((clName ++ ':' :: ' ' :: v ++ ['\r', '\n']) ++ rest).length + 1)
          ((clName ++ ':' :: ' ' :: v ++ ['\r', '\n']) ++ rest) none from rfl]
      rw [readHeadersF_cl (((clName ++ ':' :: ' ' :: v ++ ['\r', '\n']) ++ rest).length)
        clName v rest none clName_facts hne hall (by decide) 'C' "ontent-Length".data
        (by decide)]
      rw [hatoi]
    have hhd2 := hhd
    simp only [List.append_assoc, List.cons_append, List.nil_append] at hhd2
    simp [streamRead, hhd, hhd2]
  · intro n body h
    rw [streamRead_body]
    simp [h]
  · intro body h
    rw [streamRead_body]
    simp [h, List.take_length]
  · intro hs name c0 n' m hname hnall hfold hall hid
    exact streamRead_of_headers _ _ hid
      (readHeaders_gen hs name c0 n' hname hnall hfold hall _ _)

/-- C6 witness: concrete instances of the five clauses — an ignored `X: y`
header followed by a blank line fails for the missing Content-Length; the
value `abc` fails as a non-integer; announcing five bytes over a two-byte
body truncates; announcing the right length over the non-JSON body `xy`
fails to parse; and an upper-case `CONTENT-LENGTH` frame reads back a
request. -/
theorem stream_read_failure_modes_witness :
    streamRead (renderHeaders [(['X'], ['y'])] ++ '\r' :: '\n' :: []) =
      .error .missingContentLength ∧
    streamRead ((clName ++ ':' :: ' ' :: ['a', 'b', 'c'] ++ ['\r', '\n']) ++ []) =
      .error .badContentLength ∧
    streamRead ((clName ++ ':' :: ' ' :: natChars 5 ++ ['\r', '\n']) ++
      ('\r' :: '\n' :: ['x', 'y'])) = .error .bodyEof ∧
    streamRead ((clName ++ ':' :: ' ' :: natChars 2 ++ ['\r', '\n']) ++
      ('\r' :: '\n' :: ['x', 'y'])) = .error .parseFail ∧
    streamRead (renderHeaders [] ++
      (("CONTENT-LENGTH".data ++ ':' :: ' ' ::
        natChars (encodeJson (messageToJson
          (Message.mk "2.0" (some (ID.num 1)) "ping" none none none))).length ++
        ['\r', '\n']) ++ ('\r' :: '\n' :: encodeJson (messageToJson
          (Message.mk "2.0" (some (ID.num 1)) "ping" none none none))))) =
      .ok (Message.mk "2.0" (some (ID.num 1)) "ping" none none none, []) :=
  ⟨stream_read_failure_modes.1 [(['X'], ['y'])] [] (by decide),
   stream_read_failure_modes.2.1 ['a', 'b', 'c'] [] (by decide) (by decide) (by decide),
   stream_read_failure_modes.2.2.1 5 ['x', 'y'] (by decide),
   stream_read_failure_modes.2.2.2.1 ['x', 'y'] (by decide),
   stream_read_failure_modes.2.2.2.2 [] "CONTENT-LENGTH".data 'C' "ONTENT-LENGTH".data
     (Message.mk "2.0" (some (ID.num 1)) "ping" none none none) (by decide) (by decide)
     (by decide) (by decide) (by decide)⟩

/-- C7: `Conn.handleResponse` delivers a response whose id has a registered
pending slot to exactly that slot and removes the entry, leaving every other
key and the id counter untouched and writing nothing to the peer; a response
whose id has no pending slot is dropped with the state unchanged, nothing
delivered and nothing written. -/
theorem conn_response_correlation :
    (∀ st msg ch, Message.IsResponse msg = true →
      st.pending (respKey msg) = some ch →
      (handleResponse st msg).2.1 = some (ch, msg) ∧
      (handleResponse st msg).1.pending (respKey msg) = none ∧
      (∀ k, ¬ k = respKey msg → (handleResponse st msg).1.pending k = st.pending k) ∧
      (handleResponse st msg).1.nextId = st.nextId ∧
      (handleResponse st msg).2.2 = []) ∧
    (∀ st msg, Message.IsResponse msg = true →
      st.pending (respKey msg) = none →
      handleResponse st msg = (st, none, [])) := by
  refine ⟨?_, ?_⟩
  · intro st msg ch _ h
    refine ⟨?_, ?_, ?_, ?_, ?_⟩
    · simp [handleResponse, h]
    · simp [handleResponse, h]
    · intro k hk
      simp [handleResponse, h, hk]
    · simp [handleResponse, h]
    · simp [handleResponse, h]
  · intro st msg _ h
    simp [handleResponse, h]

/-- C7 witness: a slot registered under key `"1"` receives the response with
numeric id 1 and the entry disappears; a response with numeric id 2 is
dropped without any effect. -/
theorem conn_response_correlation_witness :
    (handleResponse
        { pending := fun k => if k = "1" then some 5 else none, nextId := 1 }
        (Message.mk "2.0" (some (ID.num 1)) "" none (some Json.null) none)).2.1 =
      some (5, Message.mk "2.0" (some (ID.num 1)) "" none (some Json.null) none) ∧
    (handleResponse
        { pending := fun k => if k = "1" then some 5 else none, nextId := 1 }
        (Message.mk "2.0" (some (ID.num 1)) "" none (some Json.null) none)).1.pending
      (respKey (Message.mk "2.0" (some (ID.num 1)) "" none (some Json.null) none)) =
        none ∧
    handleResponse
        { pending := fun k => if k = "1" then some 5 else none, nextId := 1 }
        (Message.mk "2.0" (some (ID.num 2)) "" none (some Json.null) none) =
      ({ pending := fun k => if k = "1" then some 5 else none, nextId := 1 }, none, []) :=
  ⟨(conn_response_correlation.1 _ _ 5 (by decide) (by decide)).1,
   (conn_response_correlation.1 _ _ 5 (by decide) (by decide)).2.1,
   conn_response_correlation.2 _ _ (by decide) (by decide)⟩

/-- C8: `AggregateCapabilities` returns the default capability set — sync 1
(Full), hover, completion triggered on a dot, and all the listed providers —
whenever the name list is empty or no named backend has a readable cache. -/
theorem aggregate_capabilities_default (loadCache : String → Option ServerCapabilities)
    (merge : List ServerCapabilities → ServerCapabilities) (names : List String)
    (h : ∀ n ∈ names, loadCache n = none) :
    AggregateCapabilities loadCache merge names = defaultCapabilities ∧
    defaultCapabilities.textDocumentSync = 1 ∧
    defaultCapabilities.hoverProvider = true ∧
    defaultCapabilities.completionProvider = some { triggerCharacters := ["."] } ∧
    defaultCapabilities.definitionProvider = true ∧
    defaultCapabilities.typeDefinitionProvider = true ∧
    defaultCapabilities.implementationProvider = true ∧
    defaultCapabilities.referencesProvider = true ∧
    defaultCapabilities.documentSymbolProvider = true ∧
    defaultCapabilities.codeActionProvider = true ∧
    defaultCapabilities.documentFormattingProvider = true ∧
    defaultCapabilities.documentRangeFormattingProvider = true ∧
    defaultCapabilities.renameProvider = true ∧
    defaultCapabilities.foldingRangeProvider = true ∧
    defaultCapabilities.selectionRangeProvider = true ∧
    defaultCapabilities.workspaceSymbolProvider = true := by
  refine ⟨?_, rfl, rfl, rfl, rfl, rfl, rfl, rfl, rfl, rfl, rfl, rfl, rfl, rfl, rfl, rfl⟩
  unfold AggregateCapabilities
  have hnil : names.filterMap loadCache = [] := by
    rw [List.filterMap_eq_nil_iff]
    exact h
  simp [hnil]

/-- C8 witness: a backend name with no readable cache. -/
theorem aggregate_capabilities_default_witness :
    AggregateCapabilities (fun _ => none) (fun _ => defaultCapabilities) ["gopls"] =
      defaultCapabilities :=
  (aggregate_capabilities_default (fun _ => none) (fun _ => defaultCapabilities)
    ["gopls"] (by simp)).1

/-- C9: `ID.String` is not injective — the numeric id 7 and the string id
`"7"` both project to the key `"7"` — and consequently a pending slot
registered under the numeric id 7's key is the one that receives a response
carrying the string id `"7"`. -/
theorem id_string_collision :
    ID.String (ID.num 7) = "7" ∧
    ID.String (ID.str "7") = "7" ∧
    ID.num 7 ≠ ID.str "7" ∧
    (handleResponse
        { pending := fun k => if k = ID.String (ID.num 7) then some 42 else none,
          nextId := 7 }
        (Message.mk "2.0" (some (ID.str "7")) "" none (some Json.null) none)).2.1 =
      some (42, Message.mk "2.0" (some (ID.str "7")) "" none (some Json.null) none) ∧
    (handleResponse
        { pending := fun k => if k = ID.String (ID.num 7) then some 42 else none,
          nextId := 7 }
        (Message.mk "2.0" (some (ID.str "7")) "" none (some Json.null) none)).1.pending
      "7" = none := by
  refine ⟨by decide, by decide, by decide, by decide, by decide⟩

/-- C10: when the inbound handler fails on a request (id and method both
present), `Conn.handleMessage` writes exactly one error response carrying
code −32603 (InternalError) and the handler's error text; when the failing
message has no id (a notification), nothing is written; when the handler
returns no error and no message, nothing is written. -/
theorem conn_handler_error_replies :
    (∀ hf msg e, hf msg = HandlerResult.err e → Message.IsRequest msg = true →
      handleMessage (some hf) msg =
        [NewErrorResponse (msg.id.getD ID.null) InternalError e none]) ∧
    (∀ hf msg e, hf msg = HandlerResult.err e → msg.id = none →
      handleMessage (some hf) msg = []) ∧
    (∀ hf msg, hf msg = HandlerResult.ok none → handleMessage (some hf) msg = []) ∧
    InternalError = -32603 ∧
    (∀ i e, (NewErrorResponse i InternalError e none).error =
      some { code := -32603, message := e, data := none }) := by
  refine ⟨?_, ?_, ?_, rfl, fun i e => rfl⟩
  · intro hf msg e hh hreq
    simp [handleMessage, hh, hreq]
  · intro hf msg e hh hid
    simp [handleMessage, hh, Message.IsRequest, hid]
  · intro hf msg hh
    simp [handleMessage, hh]

/-- C10 witness: a failing handler on a concrete request and on a concrete
notification, and a nil-result handler. -/
theorem conn_handler_error_replies_witness :
    handleMessage (some (fun _ => HandlerResult.err "boom"))
        (Message.mk "2.0" (some (ID.num 4)) "m" none none none) =
      [NewErrorResponse ((some (ID.num 4)).getD ID.null) InternalError "boom" none] ∧
    handleMessage (some (fun _ => HandlerResult.err "boom"))
        (Message.mk "2.0" none "m" none none none) = [] ∧
    handleMessage (some (fun _ => HandlerResult.ok none))
        (Message.mk "2.0" (some (ID.num 4)) "m" none none none) = [] :=
  ⟨conn_handler_error_replies.1 _ _ "boom" rfl (by decide),
   conn_handler_error_replies.2.1 _ _ "boom" rfl rfl,
   conn_handler_error_replies.2.2.1 _ _ rfl⟩
